/-
Verification of the synchronization/deduplication core of the
paper-organization pipeline (`zotero_sync.py`, `summarizer.py`).

The development shallowly embeds the relevant Python functions as
executable Lean definitions:

* `normalize_title`       — `zotero_sync._normalize_title`
* `get_new_items`         — `ZoteroSync.get_new_items` (remote fetch and
                            library-version fetch passed as parameters)
* `processItemState`      — the state mutation performed at the end of
                            `ZoteroSync.process_item` (lines 429-435)
* `load_state`            — `ZoteroSync.load_state`
* `update_existing_markdown` — the text rewriting of
                            `ZoteroSync.update_existing_markdown`
* `mark_self_modified` / `scan` — `ObsidianWatcher`
* `callGeminiModel`       — `summarizer._call_gemini_model`
* `push_to_zotero`        — `ObsidianWatcher.push_to_zotero`

Machine strings are `List Char`; Python `re` behaviour (MULTILINE `$`,
`\s` crossing newlines, replacement-template escape processing) is
embedded precisely where the source relies on it.
-/
import Mathlib

namespace PaperSync

/-! ## Character and list utilities -/

/-- Blank characters matched by the `[ \t]` character class. -/
def isBlankC (c : Char) : Bool := c = ' ' || c = '\t'

/-- ASCII model of Python's `\s` class and of `str.strip()` whitespace. -/
def isPyWs (c : Char) : Bool :=
  c = ' ' || c = '\t' || c = '\n' || c = '\r' || c = '\x0b' || c = '\x0c'

/-- Strip trailing `[ \t]` blanks. -/
def rstripB (l : List Char) : List Char :=
  (l.reverse.dropWhile isBlankC).reverse

/-- The trailing run of `[ \t]` blanks. -/
def trailingB (l : List Char) : List Char :=
  (l.reverse.takeWhile isBlankC).reverse

/-- Python `str.strip()` on the right only. -/
def trimEndPy (l : List Char) : List Char :=
  (l.reverse.dropWhile isPyWs).reverse

/-- Python `str.strip()`. -/
def trimPy (l : List Char) : List Char :=
  trimEndPy (l.dropWhile isPyWs)

theorem dropWhile_len_le {α : Type} (p : α → Bool) :
    ∀ l : List α, (l.dropWhile p).length ≤ l.length := by
  intro l
  induction l with
  | nil => simp [List.dropWhile]
  | cons a t ih =>
    rw [List.dropWhile]
    cases p a with
    | true => exact Nat.le_trans ih (Nat.le_succ _)
    | false => exact Nat.le_refl _

/-! ## Title normalization (`zotero_sync._normalize_title`)

`cleaned = _HTML_TAG_RE.sub("", title)` with `_HTML_TAG_RE = <[^>]+>`,
then `re.sub(r"\s+", " ", cleaned).strip().lower()`. -/

/-- One fuel unit is consumed per examined character, so `l.length` fuel
never runs out; the `0` case is unreachable. -/
def stripTagsAux : Nat → List Char → List Char
  | _, [] => []
  | 0, l => l
  | fuel + 1, c :: rest =>
    if c = '<' then
      let pre := rest.takeWhile (fun d => d ≠ '>')
      if pre.length = 0 ∨ pre.length = rest.length then
        c :: stripTagsAux fuel rest
      else
        stripTagsAux fuel (rest.drop (pre.length + 1))
    else c :: stripTagsAux fuel rest

/-- Remove every `<[^>]+>` match (leftmost, non-overlapping). -/
def stripTags (l : List Char) : List Char := stripTagsAux l.length l

/-- `re.sub(r"\s+", " ", ·)`: every maximal whitespace run becomes a
single space.  The flag records whether the previous character was
inside a whitespace run. -/
def collapseAux : Bool → List Char → List Char
  | _, [] => []
  | inWs, c :: rest =>
    if isPyWs c then
      if inWs then collapseAux true rest
      else ' ' :: collapseAux true rest
    else c :: collapseAux false rest

def collapseWs (l : List Char) : List Char := collapseAux false l

/-- `zotero_sync._normalize_title`: strip HTML tags, collapse whitespace,
trim, lowercase (ASCII model of `str.lower()`). -/
def normalize_title (t : String) : String :=
  String.mk ((trimPy (collapseWs (stripTags t.toList))).map Char.toLower)

/-! ## Remote items and processing state -/

/-- A remote Zotero item, restricted to the fields that
`get_new_items` / `process_item` inspect.  `version` is the remote
monotonic version counter (used by the incremental `since` fetch). -/
structure RItem where
  key : String
  itemType : String
  title : String
  version : Nat
deriving DecidableEq, Repr

/-- The persisted processing state (`zotero_state.json`). -/
structure SyncState where
  last_version : Nat
  processed_keys : List String
  processed_titles : List String
deriving DecidableEq, Repr

def zeroSyncState : SyncState := ⟨0, [], []⟩

/-- Model of the Zotero API `?since=v` incremental fetch: items whose
version counter is strictly greater than `v`. -/
def fetchSince (items : List RItem) (v : Nat) : List RItem :=
  items.filter (fun it => v < it.version)

/-- The classification loop of `get_new_items` (lines 132-155).
`pk`/`pt` are the `processed_keys` / `processed_titles` sets read from
the state once, before the loop; they are not updated by the loop, while
duplicate-by-title keys are appended to the live state. -/
def scanItems (pk pt : List String) :
    List RItem → List RItem → List RItem → SyncState →
    List RItem × List RItem × SyncState
  | [], newAcc, updAcc, st => (newAcc, updAcc, st)
  | it :: rest, newAcc, updAcc, st =>
    if it.itemType = "attachment" ∨ it.itemType = "note" then
      scanItems pk pt rest newAcc updAcc st
    else if it.itemType = "thesis" ∨ it.itemType = "dissertation" then
      scanItems pk pt rest newAcc updAcc st
    else if it.key ∈ pk then
      scanItems pk pt rest newAcc (updAcc ++ [it]) st
    else if normalize_title it.title ≠ "" ∧ normalize_title it.title ∈ pt then
      scanItems pk pt rest newAcc updAcc
        { st with processed_keys := st.processed_keys ++ [it.key] }
    else
      scanItems pk pt rest (newAcc ++ [it]) updAcc st

/-- `ZoteroSync.get_new_items`.  The remote calls are passed in:
`fetch` is the result of `self.zot.items(since=...)` (an exception is
`.error`), `libVersion` the result of `self.zot.last_modified_version()`
(`none` when that call raises).  Returns the new-item list and the
mutated in-memory state. -/
def get_new_items (s : SyncState) (fetch : Except String (List RItem))
    (libVersion : Option Nat) : List RItem × SyncState :=
  match fetch with
  | .error _ => ([], s)
  | .ok items =>
    let s1 := match libVersion with
      | some v => { s with last_version := v }
      | none => s
    let r := scanItems s.processed_keys s.processed_titles items [] [] s1
    (r.1, r.2.2)

/-- The state mutation at the end of `ZoteroSync.process_item`
(lines 429-435): append the key, append the normalized title when
non-empty and absent, then `save_state()` persists the result. -/
def processItemState (s : SyncState) (it : RItem) : SyncState :=
  let s1 := { s with processed_keys := s.processed_keys ++ [it.key] }
  let norm := normalize_title it.title
  if norm ≠ "" ∧ norm ∉ s1.processed_titles then
    { s1 with processed_titles := s1.processed_titles ++ [norm] }
  else s1

/-! ## Lemmas about the classification loop -/

theorem scanItems_keys_mono (pk pt : List String) (k : String) :
    ∀ (items newAcc updAcc : List RItem) (st : SyncState),
    k ∈ st.processed_keys →
    k ∈ (scanItems pk pt items newAcc updAcc st).2.2.processed_keys := by
  intro items
  induction items with
  | nil => intro newAcc updAcc st h; simpa [scanItems] using h
  | cons it rest ih =>
    intro newAcc updAcc st h
    simp only [scanItems]
    split_ifs with h1 h2 h3 h4
    · exact ih _ _ _ h
    · exact ih _ _ _ h
    · exact ih _ _ _ h
    · exact ih _ _ _ (by simpa using Or.inl h)
    · exact ih _ _ _ h

theorem scanItems_dup_not_new (pk pt : List String) (b : RItem)
    (hb4 : normalize_title b.title ≠ "" ∧ normalize_title b.title ∈ pt) :
    ∀ (items newAcc updAcc : List RItem) (st : SyncState),
    b ∉ newAcc → b ∉ (scanItems pk pt items newAcc updAcc st).1 := by
  intro items
  induction items with
  | nil => intro newAcc updAcc st h; simpa [scanItems] using h
  | cons it rest ih =>
    intro newAcc updAcc st h
    simp only [scanItems]
    split_ifs with h1 h2 h3 h4
    · exact ih _ _ _ h
    · exact ih _ _ _ h
    · exact ih _ _ _ h
    · exact ih _ _ _ h
    · refine ih _ _ _ ?_
      intro hmem
      rcases List.mem_append.mp hmem with hl | hr
      · exact h hl
      · have hbe : b = it := by simpa using hr
        exact h4 (hbe ▸ hb4)

theorem scanItems_dup_key_recorded (pk pt : List String) (b : RItem)
    (hb1 : ¬(b.itemType = "attachment" ∨ b.itemType = "note"))
    (hb2 : ¬(b.itemType = "thesis" ∨ b.itemType = "dissertation"))
    (hb3 : b.key ∉ pk)
    (hb4 : normalize_title b.title ≠ "" ∧ normalize_title b.title ∈ pt) :
    ∀ (items newAcc updAcc : List RItem) (st : SyncState),
    b ∈ items →
    b.key ∈ (scanItems pk pt items newAcc updAcc st).2.2.processed_keys := by
  intro items
  induction items with
  | nil => intro newAcc updAcc st h; exact absurd h (List.not_mem_nil b)
  | cons it rest ih =>
    intro newAcc updAcc st h
    rcases List.mem_cons.mp h with hbe | hmem
    · subst hbe
      simp only [scanItems]
      split_ifs
      exact scanItems_keys_mono pk pt b.key _ _ _ _ (by simp)
    · simp only [scanItems]
      split_ifs with h1 h2 h3 h4
      · exact ih _ _ _ hmem
      · exact ih _ _ _ hmem
      · exact ih _ _ _ hmem
      · exact ih _ _ _ hmem
      · exact ih _ _ _ hmem

/-- The normalized title of a processed item is always recorded
(either it was already present or it has just been appended). -/
theorem processItemState_title_mem (s : SyncState) (a : RItem)
    (h : normalize_title a.title ≠ "") :
    normalize_title a.title ∈ (processItemState s a).processed_titles := by
  simp only [processItemState]
  split_ifs with hc
  · simp
  · rcases not_and_or.mp hc with hne | hmem
    · exact absurd h (by simpa using hne)
    · simpa using not_not.mp hmem

/-! ## Demo items used for the concrete evaluations -/

def itemA : RItem := ⟨"AAAA", "journalArticle", "Paper One", 1⟩
def itemB : RItem := ⟨"BBBB", "journalArticle", "Paper Two", 2⟩
def demoLibItems : List RItem := [itemA, itemB]

def itemD1 : RItem := ⟨"K1", "journalArticle", "Deep <i>Learning</i> for X", 1⟩
def itemD2 : RItem := ⟨"K2", "journalArticle", "deep  learning for x", 2⟩

/-! ## Claim C6 -/

/-- Claim C6: when the remote items fetch raises inside `get_new_items`,
the function returns an empty new-item list and the state is completely
unchanged — `last_version` is not advanced and no entry is added to
`processed_keys` or `processed_titles`, so the next poll retries from
the same `last_version`. -/
theorem get_new_items_fetch_failure_atomic (s : SyncState) (msg : String)
    (libVersion : Option Nat) :
    get_new_items s (.error msg) libVersion = ([], s) := rfl

/-! ## Claim C1 -/

/-- Claim C1 evaluated at the failing input (crash resumability is
violated by the code).  Library: item A (version 1), item B (version 2),
library version marker 2.  The first cycle classifies both A and B as
new and already advances `last_version` to 2; processing A persists
`{last_version := 2, processed_keys := [A], processed_titles := [..]}`.
After a crash before B is processed, the restarted classification
fetches `since = 2`, which returns nothing: B is *not* returned as new
again (contradicting the claim, which requires B to be reprocessed),
and A is not returned either (that part of the claim holds). -/
theorem crash_resume_loses_next_item_eval :
    get_new_items zeroSyncState (.ok (fetchSince demoLibItems 0)) (some 2)
      = ([itemA, itemB], ⟨2, [], []⟩) ∧
    processItemState ⟨2, [], []⟩ itemA = ⟨2, ["AAAA"], ["paper one"]⟩ ∧
    get_new_items ⟨2, ["AAAA"], ["paper one"]⟩
        (.ok (fetchSince demoLibItems 2)) (some 2)
      = ([], ⟨2, ["AAAA"], ["paper one"]⟩) := by
  refine ⟨by decide, by decide, by decide⟩

/-! ## Claim C2 -/

/-- Claim C2 counterexample: two items with equal non-empty normalized
titles and different keys arriving in the *same* polling batch are both
classified as new — the second one is processed as a new item (a second
Note creation is attempted for it), and its key is not appended to
`processed_keys` as a suppressed duplicate. -/
theorem same_batch_title_dup_counterexample :
    normalize_title itemD1.title = normalize_title itemD2.title ∧
    normalize_title itemD2.title ≠ "" ∧
    itemD1.key ≠ itemD2.key ∧
    get_new_items zeroSyncState (.ok [itemD1, itemD2]) (some 2)
      = ([itemD1, itemD2], ⟨2, [], []⟩) := by
  refine ⟨by decide, by decide, by decide, by decide⟩

/-- Claim C2 amended: title-based deduplication works *across* polling
batches.  If item `a` has been processed (its key and normalized title
recorded in the state) and a later batch contains an item `b` with the
same non-empty normalized title but a different, unprocessed key, then
`b` is not classified as new (no Note is created for it) and `b`'s key
is appended to `processed_keys`, suppressing it on all future polls.
In the same batch, by contrast, both duplicates are classified as new
(see the counterexample). -/
theorem title_dedup_across_batches (s : SyncState) (a b : RItem)
    (items : List RItem) (libVersion : Option Nat)
    (htitle : normalize_title a.title = normalize_title b.title)
    (hne : normalize_title b.title ≠ "")
    (hkey : b.key ≠ a.key)
    (hkeys : b.key ∉ s.processed_keys)
    (htype1 : ¬(b.itemType = "attachment" ∨ b.itemType = "note"))
    (htype2 : ¬(b.itemType = "thesis" ∨ b.itemType = "dissertation"))
    (hmem : b ∈ items) :
    b ∉ (get_new_items (processItemState s a) (.ok items) libVersion).1 ∧
    b.key ∈ (get_new_items (processItemState s a) (.ok items)
        libVersion).2.processed_keys := by
  have htmem : normalize_title b.title ∈
      (processItemState s a).processed_titles := by
    have := processItemState_title_mem s a (htitle ▸ hne)
    simpa [htitle] using this
  have hpk : (processItemState s a).processed_keys
      = s.processed_keys ++ [a.key] := by
    simp only [processItemState]
    split_ifs <;> rfl
  have hkmem : b.key ∉ (processItemState s a).processed_keys := by
    rw [hpk]
    simp [hkeys, hkey]
  constructor
  · unfold get_new_items
    cases libVersion with
    | none =>
      exact scanItems_dup_not_new _ _ b ⟨hne, htmem⟩ items [] [] _ (by simp)
    | some v =>
      exact scanItems_dup_not_new _ _ b ⟨hne, htmem⟩ items [] [] _ (by simp)
  · unfold get_new_items
    cases libVersion with
    | none =>
      exact scanItems_dup_key_recorded _ _ b htype1 htype2 hkmem
        ⟨hne, htmem⟩ items [] [] _ hmem
    | some v =>
      exact scanItems_dup_key_recorded _ _ b htype1 htype2 hkmem
        ⟨hne, htmem⟩ items [] [] _ hmem

/-- Witness for `title_dedup_across_batches` at concrete inputs: after
`itemD1` is processed from the zero state, a later batch containing
`itemD2` does not classify it as new, and registers its key. -/
theorem title_dedup_across_batches_witness :
    itemD2 ∉ (get_new_items (processItemState zeroSyncState itemD1)
        (.ok [itemD2]) (some 3)).1 ∧
    itemD2.key ∈ (get_new_items (processItemState zeroSyncState itemD1)
        (.ok [itemD2]) (some 3)).2.processed_keys :=
  title_dedup_across_batches zeroSyncState itemD1 itemD2 [itemD2] (some 3)
    (by decide) (by decide) (by decide) (by decide) (by decide) (by decide)
    (by decide)

/-! ## State loading (`ZoteroSync.load_state`, claim C5)

```
if STATE_FILE.exists():
    try:
        with open(STATE_FILE, "r", encoding="utf-8") as f:
            return json.load(f)
    except (json.JSONDecodeError, OSError):
        pass
return {"last_version": 0, "processed_keys": [], "processed_titles": []}
```
-/

/-- A JSON value, as produced by `json.load`. -/
inductive JsonVal where
  | obj (fields : List (String × JsonVal))
  | arr (elems : List JsonVal)
  | str (s : String)
  | num (n : Int)
  | boolean (b : Bool)
  | null

/-- The possible outcomes of opening and parsing the state file in text
mode with `encoding="utf-8"`:
* `missing`     — `STATE_FILE.exists()` is false;
* `osError`     — the file exists but opening/reading raises `OSError`;
* `undecodable` — the raw bytes are not valid UTF-8, so reading raises
  `UnicodeDecodeError` (a `ValueError`, neither `json.JSONDecodeError`
  nor `OSError`);
* `unparsable`  — the text is not valid JSON, `json.load` raises
  `json.JSONDecodeError`;
* `parsed v`    — `json.load` returns the JSON value `v` (any value,
  not necessarily an object of the state shape). -/
inductive StateFileRead where
  | missing
  | osError
  | undecodable
  | unparsable
  | parsed (v : JsonVal)

/-- The zero state returned for a missing/unparsable file. -/
def zeroStateJson : JsonVal :=
  .obj [("last_version", .num 0), ("processed_keys", .arr []),
        ("processed_titles", .arr [])]

/-- `ZoteroSync.load_state`: `.error` models an uncaught exception
propagating out of the method. -/
def load_state : StateFileRead → Except String JsonVal
  | .missing => .ok zeroStateJson
  | .osError => .ok zeroStateJson
  | .undecodable => .error "UnicodeDecodeError"
  | .unparsable => .ok zeroStateJson
  | .parsed v => .ok v

/-! ## Claim C5 -/

/-- Claim C5 counterexample: `load_state` does not fail soft on *every*
malformed content.  A state file whose bytes are not valid UTF-8 makes
it raise (`UnicodeDecodeError` is caught by neither handler), and a
file holding syntactically valid JSON of the wrong shape (here the JSON
array `[]`) is returned as-is instead of the zero state. -/
theorem load_state_counterexample :
    (∃ msg, load_state .undecodable = .error msg) ∧
    load_state (.parsed (.arr [])) ≠ .ok zeroStateJson := by
  refine ⟨⟨"UnicodeDecodeError", rfl⟩, ?_⟩
  intro h
  simp [load_state, zeroStateJson] at h

/-- Claim C5 amended: `load_state` returns without raising and yields
the zero state `{last_version: 0, processed_keys: [], processed_titles:
[]}` when the state file is missing, unreadable (`OSError`), or holds
text that fails JSON parsing; a file whose bytes are not decodable text
raises instead, and any successfully parsed JSON value — whatever its
shape — is returned unchanged rather than replaced by the zero state. -/
theorem load_state_fails_soft :
    load_state .missing = .ok zeroStateJson ∧
    load_state .osError = .ok zeroStateJson ∧
    load_state .unparsable = .ok zeroStateJson ∧
    ∀ v : JsonVal, load_state (.parsed v) = .ok v := by
  exact ⟨rfl, rfl, rfl, fun v => rfl⟩

/-! ## Association-list helpers (model of Python `dict` operations) -/

/-- `d[k] = v`: lookup finds the new binding first; stale bindings are
removed. -/
def setK {β : Type} (l : List (String × β)) (k : String) (v : β) :
    List (String × β) :=
  (k, v) :: l.filter (fun q => q.1 != k)

/-- `del d[k]`. -/
def delK {β : Type} (l : List (String × β)) (k : String) :
    List (String × β) :=
  l.filter (fun q => q.1 != k)

theorem lookup_delK_ne {β : Type} (l : List (String × β)) (k k' : String)
    (h : k ≠ k') : List.lookup k (delK l k') = List.lookup k l := by
  induction l with
  | nil => rfl
  | cons a t ih =>
    by_cases ha : a.1 = k'
    · have hne : (a.1 != k') = false := by simp [ha]
      have hkk : (k == a.1) = false := by
        simp only [beq_eq_false_iff_ne, ne_eq]
        exact fun he => h (ha ▸ he)
      simp only [delK, List.filter_cons, hne, cond_false, List.lookup, hkk]
      exact ih
    · have hne : (a.1 != k') = true := by simp [ha]
      simp only [delK, List.filter_cons, hne, cond_true, List.lookup]
      cases hkk : (k == a.1) with
      | true => rfl
      | false => exact ih

theorem lookup_setK_self {β : Type} (l : List (String × β)) (k : String)
    (v : β) : List.lookup k (setK l k v) = some v := by
  simp [setK, List.lookup]

theorem lookup_setK_ne {β : Type} (l : List (String × β)) (k k' : String)
    (v : β) (h : k ≠ k') : List.lookup k (setK l k' v) = List.lookup k l := by
  simp only [setK, List.lookup]
  rw [show (k == k') = false from by simpa using h]
  exact lookup_delK_ne l k k' h

/-! ## The Obsidian file watcher (`ObsidianWatcher`)

Times are rationals (a model of `time.time()` floats); file contents are
represented by their observed `(mtime, content-hash)` pair, so a `scan`
input is the list of `(path, mtime, hash)` triples the glob produced
(files whose `stat`/`read_text` raised are already dropped). -/

def SELF_MODIFY_COOLDOWN : ℚ := 3

structure WatchSt where
  /-- `self._snapshots : {path: (mtime, content_hash)}` -/
  snaps : List (String × (ℚ × String))
  /-- `self._self_modified : {path: timestamp}` -/
  selfMod : List (String × ℚ)
deriving DecidableEq

/-- `ObsidianWatcher.mark_self_modified`. -/
def mark_self_modified (st : WatchSt) (p : String) (now : ℚ) : WatchSt :=
  { st with selfMod := setK st.selfMod p now }

/-- `ObsidianWatcher._is_self_modified`, including the deletion of an
expired entry and the `if ts:` truthiness test (a `0.0` timestamp acts
like an absent entry). -/
def isSelfModifiedStep (st : WatchSt) (now : ℚ) (p : String) :
    Bool × WatchSt :=
  match List.lookup p st.selfMod with
  | none => (false, st)
  | some ts =>
    if ts ≠ 0 ∧ now - ts < SELF_MODIFY_COOLDOWN then (true, st)
    else if ts ≠ 0 then (false, { st with selfMod := delK st.selfMod p })
    else (false, st)

/-- One iteration of the `scan` loop body for one globbed file. -/
def scanStep (now : ℚ) (st : WatchSt) (acc : List String)
    (e : String × ℚ × String) : WatchSt × List String :=
  match List.lookup e.1 st.snaps with
  | none => ({ st with snaps := setK st.snaps e.1 (e.2.1, e.2.2) }, acc)
  | some prev =>
    if e.2.1 ≠ prev.1 ∧ e.2.2 ≠ prev.2 then
      let r := isSelfModifiedStep st now e.1
      ({ r.2 with snaps := setK r.2.snaps e.1 (e.2.1, e.2.2) },
       if r.1 then acc else acc ++ [e.1])
    else (st, acc)

def scanAux (now : ℚ) :
    WatchSt → List String → List (String × ℚ × String) →
    WatchSt × List String
  | st, acc, [] => (st, acc)
  | st, acc, e :: es =>
    let r := scanStep now st acc e
    scanAux now r.1 r.2 es

/-- `ObsidianWatcher.scan`: returns the changed-file list and the
updated watcher state. -/
def scan (st : WatchSt) (now : ℚ) (files : List (String × ℚ × String)) :
    List String × WatchSt :=
  let r := scanAux now st [] files
  (r.2, r.1)

/-- A sequence of later scans (time and observed files of each). -/
def scanMany :
    WatchSt → List (ℚ × List (String × ℚ × String)) →
    List (List String) × WatchSt
  | st, [] => ([], st)
  | st, (t, fs) :: rest =>
    let r := scan st t fs
    let r2 := scanMany r.2 rest
    (r.1 :: r2.1, r2.2)

/-! ## Watcher lemmas -/

theorem isSelfModifiedStep_snaps (st : WatchSt) (now : ℚ) (q : String) :
    (isSelfModifiedStep st now q).2.snaps = st.snaps := by
  unfold isSelfModifiedStep
  cases List.lookup q st.selfMod with
  | none => rfl
  | some ts => dsimp only; split_ifs <;> rfl

theorem isSelfModifiedStep_selfMod_ne (st : WatchSt) (now : ℚ)
    (q p : String) (h : q ≠ p) :
    List.lookup p (isSelfModifiedStep st now q).2.selfMod
      = List.lookup p st.selfMod := by
  unfold isSelfModifiedStep
  cases List.lookup q st.selfMod with
  | none => rfl
  | some ts =>
    dsimp only
    split_ifs <;> first
      | rfl
      | exact lookup_delK_ne st.selfMod p q (fun he => h he.symm)

theorem scanStep_acc_mono (now : ℚ) (st : WatchSt) (acc : List String)
    (e : String × ℚ × String) (p : String) (h : p ∈ acc) :
    p ∈ (scanStep now st acc e).2 := by
  unfold scanStep
  cases List.lookup e.1 st.snaps with
  | none => exact h
  | some prev =>
    dsimp only
    split_ifs with hc hr
    · exact h
    · exact List.mem_append_left _ h
    · exact h

theorem scanStep_acc_ne (now : ℚ) (st : WatchSt) (acc : List String)
    (e : String × ℚ × String) (p : String) (hne : e.1 ≠ p)
    (h : p ∉ acc) : p ∉ (scanStep now st acc e).2 := by
  unfold scanStep
  cases List.lookup e.1 st.snaps with
  | none => exact h
  | some prev =>
    dsimp only
    split_ifs with hc hr
    · exact h
    · intro hmem
      rcases List.mem_append.mp hmem with hl | hr2
      · exact h hl
      · have hpe : p = e.1 := List.mem_singleton.mp hr2
        exact hne hpe.symm
    · exact h

theorem scanStep_selfMod_ne (now : ℚ) (st : WatchSt) (acc : List String)
    (e : String × ℚ × String) (p : String) (hne : e.1 ≠ p) :
    List.lookup p (scanStep now st acc e).1.selfMod
      = List.lookup p st.selfMod := by
  unfold scanStep
  cases List.lookup e.1 st.snaps with
  | none => rfl
  | some prev =>
    dsimp only
    split_ifs with hc hr
    · show List.lookup p (isSelfModifiedStep st now e.1).2.selfMod
        = List.lookup p st.selfMod
      exact isSelfModifiedStep_selfMod_ne st now e.1 p hne
    · show List.lookup p (isSelfModifiedStep st now e.1).2.selfMod
        = List.lookup p st.selfMod
      exact isSelfModifiedStep_selfMod_ne st now e.1 p hne
    · rfl

theorem scanStep_snaps_ne (now : ℚ) (st : WatchSt) (acc : List String)
    (e : String × ℚ × String) (p : String) (hne : e.1 ≠ p) :
    List.lookup p (scanStep now st acc e).1.snaps
      = List.lookup p st.snaps := by
  unfold scanStep
  cases List.lookup e.1 st.snaps with
  | none => exact lookup_setK_ne st.snaps p e.1 _ (fun he => hne he.symm)
  | some prev =>
    dsimp only
    split_ifs with hc hr
    · show List.lookup p
          (setK (isSelfModifiedStep st now e.1).2.snaps e.1 (e.2.1, e.2.2))
        = List.lookup p st.snaps
      rw [lookup_setK_ne _ p e.1 _ (fun he => hne he.symm),
          isSelfModifiedStep_snaps]
    · show List.lookup p
          (setK (isSelfModifiedStep st now e.1).2.snaps e.1 (e.2.1, e.2.2))
        = List.lookup p st.snaps
      rw [lookup_setK_ne _ p e.1 _ (fun he => hne he.symm),
          isSelfModifiedStep_snaps]
    · rfl

theorem scanAux_mono (now : ℚ) (p : String) :
    ∀ (files : List (String × ℚ × String)) (st : WatchSt)
      (acc : List String), p ∈ acc → p ∈ (scanAux now st acc files).2 := by
  intro files
  induction files with
  | nil => intro st acc h; simpa [scanAux] using h
  | cons e es ih =>
    intro st acc h
    simp only [scanAux]
    exact ih _ _ (scanStep_acc_mono now st acc e p h)

theorem lookup_delK_self {β : Type} (l : List (String × β)) (p : String) :
    List.lookup p (delK l p) = none := by
  induction l with
  | nil => rfl
  | cons a t ih =>
    by_cases ha : a.1 = p
    · have hne : (a.1 != p) = false := by simp [ha]
      simp only [delK, List.filter_cons, hne, cond_false]
      exact ih
    · have hne : (a.1 != p) = true := by simp [ha]
      simp only [delK, List.filter_cons, hne, cond_true, List.lookup]
      rw [show (p == a.1) = false from by
        simpa using fun he : p = a.1 => ha he.symm]
      exact ih

theorem isSelfModifiedStep_selfMod_lookup_or (st : WatchSt) (now : ℚ)
    (q p : String) :
    List.lookup p (isSelfModifiedStep st now q).2.selfMod
        = List.lookup p st.selfMod ∨
    List.lookup p (isSelfModifiedStep st now q).2.selfMod = none := by
  unfold isSelfModifiedStep
  cases List.lookup q st.selfMod with
  | none => exact Or.inl rfl
  | some ts =>
    dsimp only
    split_ifs
    · exact Or.inl rfl
    · by_cases hqp : q = p
      · subst hqp
        exact Or.inr (lookup_delK_self st.selfMod q)
      · exact Or.inl (lookup_delK_ne st.selfMod p q fun he => hqp he.symm)
    · exact Or.inl rfl

theorem scanStep_selfMod_lookup_or (now : ℚ) (st : WatchSt)
    (acc : List String) (e : String × ℚ × String) (p : String) :
    List.lookup p (scanStep now st acc e).1.selfMod
        = List.lookup p st.selfMod ∨
    List.lookup p (scanStep now st acc e).1.selfMod = none := by
  unfold scanStep
  cases List.lookup e.1 st.snaps with
  | none => exact Or.inl rfl
  | some prev =>
    dsimp only
    split_ifs
    · exact isSelfModifiedStep_selfMod_lookup_or st now e.1 p
    · exact isSelfModifiedStep_selfMod_lookup_or st now e.1 p
    · exact Or.inl rfl

/-- "The cooldown for `p` has expired (or `p` was never registered)":
any registered timestamp is either the falsy `0.0` or at least the
cooldown in the past. -/
def selfModExpired (st : WatchSt) (now : ℚ) (p : String) : Prop :=
  ∀ t, List.lookup p st.selfMod = some t →
    t = 0 ∨ SELF_MODIFY_COOLDOWN ≤ now - t

theorem isSelfModifiedStep_false_of_expired (st : WatchSt) (now : ℚ)
    (p : String) (h : selfModExpired st now p) :
    (isSelfModifiedStep st now p).1 = false := by
  unfold isSelfModifiedStep
  cases hl : List.lookup p st.selfMod with
  | none => rfl
  | some ts =>
    dsimp only
    rcases h ts hl with h0 | hexp
    · rw [if_neg (by simp [h0]), if_neg (by simp [h0])]
    · rw [if_neg (fun hcon => absurd hcon.2 (not_lt.mpr hexp))]
      split_ifs <;> rfl

theorem scanStep_expired_pres (now : ℚ) (st : WatchSt) (acc : List String)
    (e : String × ℚ × String) (p : String) (h : selfModExpired st now p) :
    selfModExpired (scanStep now st acc e).1 now p := by
  intro t ht
  rcases scanStep_selfMod_lookup_or now st acc e p with heq | heq
  · exact h t (heq ▸ ht)
  · rw [heq] at ht
    exact Option.noConfusion ht

/-! ## Claim C7 : the two scan scenarios -/

theorem scanAux_cooldown_suppressed (now t0 : ℚ) (p : String)
    (ht0 : t0 ≠ 0) (hcool : now - t0 < SELF_MODIFY_COOLDOWN) :
    ∀ (files : List (String × ℚ × String)) (st : WatchSt)
      (acc : List String),
    List.lookup p st.selfMod = some t0 → p ∉ acc →
    p ∉ (scanAux now st acc files).2 := by
  intro files
  induction files with
  | nil => intro st acc hsm hacc; simpa [scanAux] using hacc
  | cons e es ih =>
    intro st acc hsm hacc
    simp only [scanAux]
    by_cases hep : e.1 = p
    · obtain ⟨q, mt, ht⟩ := e
      simp only at hep
      subst hep
      unfold scanStep
      cases hl : List.lookup q st.snaps with
      | none => exact ih _ _ hsm hacc
      | some prev =>
        dsimp only
        have hsel : isSelfModifiedStep st now q = (true, st) := by
          unfold isSelfModifiedStep
          simp only [hsm]
          rw [if_pos ⟨ht0, hcool⟩]
        split_ifs with hc hri
        · refine ih _ _ ?_ hacc
          show List.lookup q (isSelfModifiedStep st now q).2.selfMod = some t0
          rw [hsel]
          exact hsm
        · rw [hsel] at hri
          exact absurd rfl hri
        · exact ih _ _ hsm hacc
    · refine ih _ _ ?_ (scanStep_acc_ne now st acc e p hep hacc)
      rw [scanStep_selfMod_ne now st acc e p hep]
      exact hsm

theorem scanAux_reports_external (now : ℚ) (p : String) (m : ℚ)
    (hsh : String) :
    ∀ (files : List (String × ℚ × String)) (st : WatchSt)
      (acc : List String) (pm : ℚ) (ph : String),
    selfModExpired st now p →
    List.lookup p st.snaps = some (pm, ph) →
    (p, m, hsh) ∈ files → m ≠ pm → hsh ≠ ph →
    p ∈ (scanAux now st acc files).2 := by
  intro files
  induction files with
  | nil =>
    intro st acc pm ph _ _ hmem _ _
    exact absurd hmem (List.not_mem_nil _)
  | cons e es ih =>
    intro st acc pm ph hexp hsnap hmem hm hh
    simp only [scanAux]
    by_cases hep : e.1 = p
    · obtain ⟨q, mt, ht⟩ := e
      simp only at hep
      subst hep
      unfold scanStep
      simp only [hsnap]
      by_cases hchanged : mt ≠ pm ∧ ht ≠ ph
      · rw [if_pos hchanged]
        have hfalse : (isSelfModifiedStep st now q).1 = false :=
          isSelfModifiedStep_false_of_expired st now q hexp
        simp only [hfalse, Bool.false_eq_true, if_false]
        exact scanAux_mono now q es _ _
          (List.mem_append_right _ (List.mem_singleton.mpr rfl))
      · rw [if_neg hchanged]
        have hmem2 : (q, m, hsh) ∈ es := by
          rcases List.mem_cons.mp hmem with heq | h2
          · exfalso
            have hmh : m = mt ∧ hsh = ht := by
              have := Prod.mk.injEq .. ▸ heq
              exact ⟨congrArg (fun x => x.2.1) heq,
                     congrArg (fun x => x.2.2) heq⟩
            rcases not_and_or.mp hchanged with hx | hx
            · exact hm (by rw [hmh.1]; exact not_not.mp hx)
            · exact hh (by rw [hmh.2]; exact not_not.mp hx)
          · exact h2
        exact ih _ _ pm ph hexp hsnap hmem2 hm hh
    · have hmem2 : (p, m, hsh) ∈ es := by
        rcases List.mem_cons.mp hmem with heq | h2
        · exact absurd (congrArg (fun x => x.1) heq.symm) hep
        · exact h2
      exact ih _ _ pm ph (scanStep_expired_pres now st acc e p hexp)
        (by rw [scanStep_snaps_ne now st acc e p hep]; exact hsnap)
        hmem2 hm hh

/-- Claim C7: self-modify suppression.  (1) If `p` was registered via
`mark_self_modified` at time `t0` (with the truthy timestamp the code
relies on), any `scan` at a time `now` with `now - t0` below the 3 s
cooldown does not report `p`, whatever its observed mtime/hash.
(2) Once the cooldown has expired, a scan that observes `p` with an
mtime *and* a content hash both different from the stored snapshot
reports `p` in its changed list. -/
theorem self_modify_suppression :
    (∀ (st : WatchSt) (p : String) (t0 now : ℚ)
       (files : List (String × ℚ × String)),
       List.lookup p st.selfMod = some t0 → t0 ≠ 0 →
       now - t0 < SELF_MODIFY_COOLDOWN →
       p ∉ (scan st now files).1) ∧
    (∀ (st : WatchSt) (p : String) (t0 now m pm : ℚ) (hsh ph : String)
       (files : List (String × ℚ × String)),
       List.lookup p st.selfMod = some t0 →
       SELF_MODIFY_COOLDOWN ≤ now - t0 →
       List.lookup p st.snaps = some (pm, ph) →
       (p, m, hsh) ∈ files → m ≠ pm → hsh ≠ ph →
       p ∈ (scan st now files).1) := by
  constructor
  · intro st p t0 now files hsm ht0 hcool
    exact scanAux_cooldown_suppressed now t0 p ht0 hcool files st []
      hsm (List.not_mem_nil p)
  · intro st p t0 now m pm hsh ph files hsm hexp hsnap hmem hm hh
    refine scanAux_reports_external now p m hsh files st [] pm ph ?_
      hsnap hmem hm hh
    intro t htl
    rw [hsm] at htl
    exact Or.inr (Option.some.inj htl ▸ hexp)

/-- Witness for `self_modify_suppression`: a file registered as
self-modified at time 10 is suppressed by a scan at time 12 and, with
the same differing observation, reported by a scan at time 14. -/
theorem self_modify_suppression_witness :
    "f" ∉ (scan ⟨[("f", (1, "h1"))], [("f", 10)]⟩ 12 [("f", 2, "h2")]).1 ∧
    "f" ∈ (scan ⟨[("f", (1, "h1"))], [("f", 10)]⟩ 14 [("f", 2, "h2")]).1 := by
  constructor
  · exact self_modify_suppression.1 ⟨[("f", (1, "h1"))], [("f", 10)]⟩
      "f" 10 12 [("f", 2, "h2")] (by rfl) (by norm_num)
      (by norm_num [SELF_MODIFY_COOLDOWN])
  · exact self_modify_suppression.2 ⟨[("f", (1, "h1"))], [("f", 10)]⟩
      "f" 10 14 2 1 "h2" "h1" [("f", 2, "h2")] (by rfl)
      (by norm_num [SELF_MODIFY_COOLDOWN]) (by rfl)
      (by simp) (by norm_num) (by simp)

/-! ## Claim C9 : suppressed changes still update the snapshot -/

theorem scanAux_append (now : ℚ) :
    ∀ (xs ys : List (String × ℚ × String)) (st : WatchSt)
      (acc : List String),
    scanAux now st acc (xs ++ ys)
      = scanAux now (scanAux now st acc xs).1 (scanAux now st acc xs).2 ys := by
  intro xs
  induction xs with
  | nil => intro ys st acc; rfl
  | cons e es ih =>
    intro ys st acc
    simp only [List.cons_append, scanAux]
    exact ih ys _ _

theorem scanAux_pres_ne (now : ℚ) (p : String) :
    ∀ (es : List (String × ℚ × String)) (st : WatchSt) (acc : List String),
    (∀ e ∈ es, e.1 ≠ p) →
    List.lookup p (scanAux now st acc es).1.snaps = List.lookup p st.snaps ∧
    List.lookup p (scanAux now st acc es).1.selfMod
      = List.lookup p st.selfMod := by
  intro es
  induction es with
  | nil => intro st acc _; exact ⟨rfl, rfl⟩
  | cons e tl ih =>
    intro st acc hne
    simp only [scanAux]
    have he : e.1 ≠ p := hne e (List.mem_cons_self e tl)
    have ihr := ih (scanStep now st acc e).1 (scanStep now st acc e).2
      (fun x hx => hne x (List.mem_cons_of_mem e hx))
    refine ⟨?_, ?_⟩
    · rw [ihr.1, scanStep_snaps_ne now st acc e p he]
    · rw [ihr.2, scanStep_selfMod_ne now st acc e p he]

theorem scanAux_unchanged_invisible (now : ℚ) (p : String) (m : ℚ)
    (hsh : String) :
    ∀ (files : List (String × ℚ × String)) (st : WatchSt)
      (acc : List String),
    List.lookup p st.snaps = some (m, hsh) →
    (∀ mt ht, (p, mt, ht) ∈ files → mt = m ∧ ht = hsh) →
    p ∉ acc →
    p ∉ (scanAux now st acc files).2 ∧
    List.lookup p (scanAux now st acc files).1.snaps = some (m, hsh) := by
  intro files
  induction files with
  | nil => intro st acc hsnap _ hacc; exact ⟨hacc, hsnap⟩
  | cons e es ih =>
    intro st acc hsnap hsame hacc
    simp only [scanAux]
    by_cases hep : e.1 = p
    · obtain ⟨q, mt, ht⟩ := e
      simp only at hep
      subst hep
      have hmh : mt = m ∧ ht = hsh := hsame mt ht (List.mem_cons_self _ _)
      have hstep : scanStep now st acc (q, mt, ht) = (st, acc) := by
        unfold scanStep
        simp only [hsnap]
        rw [if_neg]
        intro hcon
        exact hcon.1 hmh.1
      rw [hstep]
      exact ih st acc hsnap
        (fun mt2 ht2 hm2 => hsame mt2 ht2 (List.mem_cons_of_mem _ hm2)) hacc
    · refine ih _ _ ?_
        (fun mt2 ht2 hm2 => hsame mt2 ht2 (List.mem_cons_of_mem _ hm2))
        (scanStep_acc_ne now st acc e p hep hacc)
      rw [scanStep_snaps_ne now st acc e p hep]
      exact hsnap

theorem scanMany_unchanged_invisible (p : String) (m : ℚ) (hsh : String) :
    ∀ (scans : List (ℚ × List (String × ℚ × String))) (st : WatchSt),
    List.lookup p st.snaps = some (m, hsh) →
    (∀ pr ∈ scans, ∀ mt ht, (p, mt, ht) ∈ pr.2 → mt = m ∧ ht = hsh) →
    (∀ out ∈ (scanMany st scans).1, p ∉ out) ∧
    List.lookup p (scanMany st scans).2.snaps = some (m, hsh) := by
  intro scans
  induction scans with
  | nil =>
    intro st hsnap _
    exact ⟨fun out hout => absurd hout (List.not_mem_nil out), hsnap⟩
  | cons pr rest ih =>
    intro st hsnap hsame
    obtain ⟨t, fs⟩ := pr
    have h1 := scanAux_unchanged_invisible t p m hsh fs st []
      hsnap (fun mt ht hm => hsame (t, fs) (List.mem_cons_self _ _) mt ht hm)
      (List.not_mem_nil p)
    have h2 := ih (scan st t fs).2 h1.2
      (fun pr2 hpr2 => hsame pr2 (List.mem_cons_of_mem _ hpr2))
    simp only [scanMany]
    refine ⟨?_, h2.2⟩
    intro out hout
    rcases List.mem_cons.mp hout with hhead | htail
    · rw [hhead]
      exact h1.1
    · exact h2.1 out htail

/-- Claim C9: when a scan observes a file with both mtime and hash
changed but suppresses the report because the file is inside the
self-modify cooldown, the stored snapshot is nevertheless replaced by
the new `(mtime, hash)` pair; consequently any sequence of later scans
that keep observing the file with that same pair never reports it —
only a further distinct edit can be reported. -/
theorem suppressed_scan_swallows_modification :
    (∀ (st : WatchSt) (p : String) (t0 now m pm : ℚ) (hsh ph : String)
       (l1 l2 : List (String × ℚ × String)),
       (∀ e ∈ l1, e.1 ≠ p) → (∀ e ∈ l2, e.1 ≠ p) →
       List.lookup p st.snaps = some (pm, ph) → m ≠ pm → hsh ≠ ph →
       List.lookup p st.selfMod = some t0 → t0 ≠ 0 →
       now - t0 < SELF_MODIFY_COOLDOWN →
       p ∉ (scan st now (l1 ++ (p, m, hsh) :: l2)).1 ∧
       List.lookup p (scan st now (l1 ++ (p, m, hsh) :: l2)).2.snaps
         = some (m, hsh)) ∧
    (∀ (st : WatchSt) (p : String) (m : ℚ) (hsh : String)
       (scans : List (ℚ × List (String × ℚ × String))),
       List.lookup p st.snaps = some (m, hsh) →
       (∀ pr ∈ scans, ∀ mt ht, (p, mt, ht) ∈ pr.2 → mt = m ∧ ht = hsh) →
       ∀ out ∈ (scanMany st scans).1, p ∉ out) := by
  constructor
  · intro st p t0 now m pm hsh ph l1 l2 hl1 hl2 hsnap hm hh hsm ht0 hcool
    constructor
    · exact scanAux_cooldown_suppressed now t0 p ht0 hcool _ st []
        hsm (List.not_mem_nil p)
    · show List.lookup p (scanAux now st [] (l1 ++ (p, m, hsh) :: l2)).1.snaps
        = some (m, hsh)
      rw [scanAux_append]
      have hpre := scanAux_pres_ne now p l1 st [] hl1
      set r1 := scanAux now st [] l1 with hr1
      have hsnap1 : List.lookup p r1.1.snaps = some (pm, ph) := by
        rw [hpre.1]; exact hsnap
      have hsm1 : List.lookup p r1.1.selfMod = some t0 := by
        rw [hpre.2]; exact hsm
      simp only [scanAux]
      have hstep : (scanStep now r1.1 r1.2 (p, m, hsh)).1.snaps
          = setK r1.1.snaps p (m, hsh) := by
        unfold scanStep
        simp only [hsnap1]
        rw [if_pos ⟨hm, hh⟩]
        have hsel : isSelfModifiedStep r1.1 now p = (true, r1.1) := by
          unfold isSelfModifiedStep
          simp only [hsm1]
          rw [if_pos ⟨ht0, hcool⟩]
        rw [hsel]
      have hrest := scanAux_pres_ne now p l2
        (scanStep now r1.1 r1.2 (p, m, hsh)).1
        (scanStep now r1.1 r1.2 (p, m, hsh)).2 hl2
      rw [hrest.1, hstep, lookup_setK_self]
  · intro st p m hsh scans hsnap hsame
    exact (scanMany_unchanged_invisible p m hsh scans st hsnap hsame).1

/-- Witness for `suppressed_scan_swallows_modification`: the snapshot
of file `f` is replaced by the suppressed observation `(6, "h1")`, and
two later scans that keep observing `(6, "h1")` never report `f`. -/
theorem suppressed_scan_swallows_modification_witness :
    ("f" ∉ (scan ⟨[("f", (5, "h0"))], [("f", 20)]⟩ 21 [("f", 6, "h1")]).1 ∧
     List.lookup "f"
       (scan ⟨[("f", (5, "h0"))], [("f", 20)]⟩ 21 [("f", 6, "h1")]).2.snaps
       = some (6, "h1")) ∧
    (∀ out ∈ (scanMany ⟨[("f", (6, "h1"))], []⟩
        [(30, [("f", 6, "h1")]), (40, [("f", 6, "h1")])]).1,
      "f" ∉ out) := by
  constructor
  · exact suppressed_scan_swallows_modification.1
      ⟨[("f", (5, "h0"))], [("f", 20)]⟩ "f" 20 21 6 5 "h1" "h0" [] []
      (fun e he => absurd he (List.not_mem_nil e))
      (fun e he => absurd he (List.not_mem_nil e))
      (by rfl) (by norm_num) (by simp) (by rfl) (by norm_num)
      (by norm_num [SELF_MODIFY_COOLDOWN])
  · exact suppressed_scan_swallows_modification.2
      ⟨[("f", (6, "h1"))], []⟩ "f" 6 "h1"
      [(30, [("f", 6, "h1")]), (40, [("f", 6, "h1")])] (by rfl)
      (by
        intro pr hpr mt ht hm
        simp only [List.mem_cons, List.mem_singleton,
          List.not_mem_nil, or_false] at hpr
        rcases hpr with h | h <;> rw [h] at hm <;> simpa using hm)

/-! ## Gemini model-status circuit breaker (`summarizer._call_gemini_model`)

`_gemini_status : dict[str, bool | None]` is the per-model cache
(absent key = unknown, `True` = healthy, `False` = unavailable).  The
HTTP interaction of one call is abstracted into its outcome. -/

/-- Python `pat in hay` on strings. -/
def strContainsSub (pat : List Char) : List Char → Bool
  | [] => pat.isPrefixOf []
  | hay@(_ :: t) => pat.isPrefixOf hay || strContainsSub pat t

def containsToken (s pat : String) : Bool := strContainsSub pat.toList s.toList

/-- `any(k in err for k in ("API_KEY_INVALID", "404"))`. -/
def permanentGeminiError (msg : String) : Bool :=
  containsToken msg "API_KEY_INVALID" || containsToken msg "404"

/-- The outcome of the `requests.post` interaction of one call:
HTTP 429, success with a response text, `requests.ConnectionError`,
`KeyError` while digging into the response JSON, or any other
exception with its message. -/
inductive GeminiOutcome where
  | http429
  | ok (text : String)
  | connectionError
  | responseKeyError
  | otherExc (msg : String)

/-- `summarizer._call_gemini_model` for model `model`.  Returns the
response text (`none` models returning `None`), the updated
`_gemini_status` map and whether an HTTP request was attempted.
`apiKeyOk` is false when `GEMINI_API_KEY` is unset or the placeholder. -/
def callGeminiModel (apiKeyOk : Bool) (model : String)
    (st : List (String × Bool)) (out : GeminiOutcome) :
    Option String × List (String × Bool) × Bool :=
  if List.lookup model st = some false then (none, st, false)
  else if apiKeyOk = false then (none, setK st model false, false)
  else
    match out with
    | .http429 => (none, st, true)
    | .ok t => (some t, setK st model true, true)
    | .connectionError => (none, setK st model false, true)
    | .responseKeyError => (none, st, true)
    | .otherExc msg =>
      if permanentGeminiError msg then (none, setK st model false, true)
      else (none, st, true)

/-- A sequence of `_call_gemini_model` calls within one process
lifetime (possibly for different models); collects for each call the
returned text and the request-attempted flag. -/
def runGeminiCalls (apiKeyOk : Bool) :
    List (String × Bool) → List (String × GeminiOutcome) →
    List (String × Bool) × List (String × Option String × Bool)
  | st, [] => (st, [])
  | st, (model, out) :: rest =>
    let r := callGeminiModel apiKeyOk model st out
    let r2 := runGeminiCalls apiKeyOk r.2.1 rest
    (r2.1, (model, r.1, r.2.2) :: r2.2)

theorem callGeminiModel_status_ne (apiKeyOk : Bool) (model m : String)
    (st : List (String × Bool)) (out : GeminiOutcome) (hne : model ≠ m) :
    List.lookup m (callGeminiModel apiKeyOk model st out).2.1
      = List.lookup m st := by
  unfold callGeminiModel
  split_ifs with h1 h2
  · rfl
  · exact lookup_setK_ne st m model false fun he => hne he.symm
  · cases out with
    | http429 => rfl
    | ok t => exact lookup_setK_ne st m model true fun he => hne he.symm
    | connectionError =>
      exact lookup_setK_ne st m model false fun he => hne he.symm
    | responseKeyError => rfl
    | otherExc msg =>
      dsimp only
      split_ifs
      · exact lookup_setK_ne st m model false fun he => hne he.symm
      · rfl

/-! ## Claim C8 -/

/-- Claim C8: the per-model status cache moves from unknown to healthy
on the model's first successful call; from unknown or healthy to
unavailable on a permanent error class (auth failure / not-found in the
error message); and unavailability is absorbing for the process
lifetime — under any later sequence of calls, every call for that model
returns `None` without attempting a request, and the model's status
stays unavailable. -/
theorem gemini_circuit_breaker :
    (∀ (st : List (String × Bool)) (m t : String),
       List.lookup m st = none →
       List.lookup m (callGeminiModel true m st (.ok t)).2.1 = some true ∧
       (callGeminiModel true m st (.ok t)).1 = some t) ∧
    (∀ (st : List (String × Bool)) (m msg : String),
       List.lookup m st ≠ some false → permanentGeminiError msg = true →
       List.lookup m (callGeminiModel true m st (.otherExc msg)).2.1
         = some false) ∧
    (∀ (apiKeyOk : Bool) (m : String)
       (calls : List (String × GeminiOutcome)) (st : List (String × Bool)),
       List.lookup m st = some false →
       (∀ c ∈ (runGeminiCalls apiKeyOk st calls).2,
          c.1 = m → c.2.1 = none ∧ c.2.2 = false) ∧
       List.lookup m (runGeminiCalls apiKeyOk st calls).1 = some false) := by
  refine ⟨?_, ?_, ?_⟩
  · intro st m t hunknown
    unfold callGeminiModel
    rw [if_neg (by rw [hunknown]; exact fun h => Option.noConfusion h),
        if_neg (by simp)]
    exact ⟨lookup_setK_self st m true, rfl⟩
  · intro st m msg hnotbad hperm
    unfold callGeminiModel
    rw [if_neg hnotbad, if_neg (by simp)]
    dsimp only
    rw [if_pos hperm]
    exact lookup_setK_self st m false
  · intro apiKeyOk m calls
    induction calls with
    | nil =>
      intro st hbad
      exact ⟨fun c hc => absurd hc (List.not_mem_nil c), hbad⟩
    | cons call rest ih =>
      intro st hbad
      obtain ⟨model, out⟩ := call
      by_cases hmm : model = m
      · subst hmm
        have hcall : callGeminiModel apiKeyOk model st out
            = (none, st, false) := by
          unfold callGeminiModel
          rw [if_pos hbad]
        simp only [runGeminiCalls, hcall]
        have ihr := ih st hbad
        refine ⟨?_, ihr.2⟩
        intro c hc hcm
        rcases List.mem_cons.mp hc with hhead | htail
        · rw [hhead]
          exact ⟨rfl, rfl⟩
        · exact ihr.1 c htail hcm
      · simp only [runGeminiCalls]
        have hpres : List.lookup m
            (callGeminiModel apiKeyOk model st out).2.1 = some false := by
          rw [callGeminiModel_status_ne apiKeyOk model m st out hmm]
          exact hbad
        have ihr := ih _ hpres
        refine ⟨?_, ihr.2⟩
        intro c hc hcm
        rcases List.mem_cons.mp hc with hhead | htail
        · exfalso
          rw [hhead] at hcm
          exact hmm hcm
        · exact ihr.1 c htail hcm

/-- Witness for `gemini_circuit_breaker` at concrete inputs: an unknown
model turns healthy on success; a healthy model turns unavailable on a
404 message; an unavailable model stays unavailable through two more
calls, which return `None` without a request. -/
theorem gemini_circuit_breaker_witness :
    (List.lookup "g" (callGeminiModel true "g" [] (.ok "hi")).2.1
       = some true ∧
     (callGeminiModel true "g" [] (.ok "hi")).1 = some "hi") ∧
    List.lookup "g" (callGeminiModel true "g" [("g", true)]
        (.otherExc "404 model not found")).2.1 = some false ∧
    ((∀ c ∈ (runGeminiCalls true [("g", false)]
        [("g", .ok "x"), ("g", .http429)]).2,
       c.1 = "g" → c.2.1 = none ∧ c.2.2 = false) ∧
     List.lookup "g" (runGeminiCalls true [("g", false)]
        [("g", .ok "x"), ("g", .http429)]).1 = some false) := by
  refine ⟨gemini_circuit_breaker.1 [] "g" "hi" (by rfl),
          gemini_circuit_breaker.2.1 [("g", true)] "g" "404 model not found"
            (by decide) (by decide),
          gemini_circuit_breaker.2.2 true "g"
            [("g", .ok "x"), ("g", .http429)] [("g", false)] (by rfl)⟩

/-! ## Lines of a text (`re.MULTILINE` boundaries) -/

/-- Split a text at every `'\n'` (like Python `str.split("\n")`; the
result is never empty). -/
def splitNl : List Char → List (List Char)
  | [] => [[]]
  | c :: rest =>
    if c = '\n' then [] :: splitNl rest
    else
      match splitNl rest with
      | [] => [[c]]
      | l :: ls => (c :: l) :: ls

/-- Rejoin lines with `'\n'` (inverse of `splitNl`). -/
def joinNl : List (List Char) → List Char
  | [] => []
  | [l] => l
  | l :: ls => l ++ '\n' :: joinNl ls

theorem splitNl_ne_nil : ∀ t : List Char, splitNl t ≠ [] := by
  intro t
  induction t with
  | nil => simp [splitNl]
  | cons c rest ih =>
    simp only [splitNl]
    split_ifs
    · simp
    · cases h : splitNl rest with
      | nil => simp
      | cons l ls => simp

theorem mem_splitNl_no_nl :
    ∀ (t : List Char) (l : List Char), l ∈ splitNl t → '\n' ∉ l := by
  intro t
  induction t with
  | nil =>
    intro l hl
    simp only [splitNl, List.mem_singleton] at hl
    simp [hl]
  | cons c rest ih =>
    intro l hl
    simp only [splitNl] at hl
    split_ifs at hl with hc
    · rcases List.mem_cons.mp hl with h | h
      · simp [h]
      · exact ih l h
    · cases hs : splitNl rest with
      | nil => exact absurd hs (splitNl_ne_nil rest)
      | cons l0 ls =>
        rw [hs] at hl
        rcases List.mem_cons.mp hl with h | h
        · subst h
          intro hmem
          rcases List.mem_cons.mp hmem with h2 | h2
          · exact hc h2.symm
          · exact ih l0 (hs ▸ List.mem_cons_self l0 ls) h2
        · exact ih l (hs ▸ List.mem_cons_of_mem l0 h)

theorem splitNl_no_nl (l : List Char) (h : '\n' ∉ l) : splitNl l = [l] := by
  induction l with
  | nil => rfl
  | cons c rest ih =>
    have hc : c ≠ '\n' := fun he => h (he ▸ List.mem_cons_self c rest)
    have hrest : '\n' ∉ rest := fun hm => h (List.mem_cons_of_mem c hm)
    simp only [splitNl, if_neg hc, ih hrest]

theorem splitNl_append_nl (l t : List Char) (h : '\n' ∉ l) :
    splitNl (l ++ '\n' :: t) = l :: splitNl t := by
  induction l with
  | nil => simp [splitNl]
  | cons c rest ih =>
    have hc : c ≠ '\n' := fun he => h (he ▸ List.mem_cons_self c rest)
    have hrest : '\n' ∉ rest := fun hm => h (List.mem_cons_of_mem c hm)
    show splitNl (c :: (rest ++ '\n' :: t)) = (c :: rest) :: splitNl t
    simp only [splitNl, if_neg hc]
    rw [ih hrest]

theorem splitNl_joinNl :
    ∀ ls : List (List Char), ls ≠ [] → (∀ l ∈ ls, '\n' ∉ l) →
    splitNl (joinNl ls) = ls := by
  intro ls
  induction ls with
  | nil => intro h _; exact absurd rfl h
  | cons l ls ih =>
    intro _ hno
    cases ls with
    | nil =>
      simp only [joinNl]
      exact splitNl_no_nl l (hno l (List.mem_cons_self l []))
    | cons l2 ls2 =>
      show splitNl (l ++ '\n' :: joinNl (l2 :: ls2)) = l :: l2 :: ls2
      rw [splitNl_append_nl l _ (hno l (List.mem_cons_self _ _))]
      rw [ih (by simp) (fun x hx => hno x (List.mem_cons_of_mem l hx))]

/-! ## The blank-field patterns of `update_existing_markdown`

Field pattern: `(\*\*NAME\*\*:[ \t]*)$` with `re.MULTILINE`; frontmatter
pattern: `^(doi:[ \t]*)$`.  A line matches the field pattern iff after
stripping trailing blanks it ends with the literal label, and the
frontmatter pattern iff the whole line is `doi:` plus blanks.  Since a
match always extends to the end of the line, `re.subn` with replacement
`\g<1>{value}` appends the expanded value to the matching line. -/

def labelOf (name : String) : List Char := ("**" ++ name ++ "**:").toList

def blankFieldMatch (lab l : List Char) : Bool := lab.isSuffixOf (rstripB l)

def doiBlankLine (l : List Char) : Bool := rstripB l == ("doi:".toList)

/-! ## Python replacement-template expansion

`re.subn(pattern, replacement, ...)` processes the replacement string
`\g<1>{value}` as a template: escape sequences inside `value` are
interpreted (`\n` a newline, `\t` a tab, ..., `\g<1>`/`\g<0>`/`\1` the
matched group, `\0oo` an octal escape), an unknown letter escape or an
invalid group reference raises `re.error` (modelled as `none`), and a
backslash before another character stays literal. -/

def isOctalDigit (c : Char) : Bool := '0' ≤ c && c ≤ '7'

def octalVal (c : Char) : Nat := c.toNat - '0'.toNat

/-- Expand a replacement-template fragment, `g1` being the text of the
matched group 1 (= the whole match for these patterns).  One fuel unit
is consumed per processed character, so `length` fuel never runs out. -/
def parseTemplateAux (g1 : List Char) : Nat → List Char → Option (List Char)
  | _, [] => some []
  | 0, _ :: _ => none
  | fuel + 1, c :: r =>
    if c = '\\' then
      match r with
      | [] => none
      | 'n' :: r2 => (parseTemplateAux g1 fuel r2).map (fun e => '\n' :: e)
      | 't' :: r2 => (parseTemplateAux g1 fuel r2).map (fun e => '\t' :: e)
      | 'r' :: r2 => (parseTemplateAux g1 fuel r2).map (fun e => '\r' :: e)
      | 'f' :: r2 => (parseTemplateAux g1 fuel r2).map (fun e => '\x0c' :: e)
      | 'v' :: r2 => (parseTemplateAux g1 fuel r2).map (fun e => '\x0b' :: e)
      | 'a' :: r2 => (parseTemplateAux g1 fuel r2).map (fun e => '\x07' :: e)
      | 'b' :: r2 => (parseTemplateAux g1 fuel r2).map (fun e => '\x08' :: e)
      | '\\' :: r2 => (parseTemplateAux g1 fuel r2).map (fun e => '\\' :: e)
      | 'g' :: '<' :: '1' :: '>' :: r2 =>
        (parseTemplateAux g1 fuel r2).map (fun e => g1 ++ e)
      | 'g' :: '<' :: '0' :: '>' :: r2 =>
        (parseTemplateAux g1 fuel r2).map (fun e => g1 ++ e)
      | 'g' :: _ :: _ => none
      | ['g'] => none
      | '1' :: e :: r2 =>
        if e.isDigit then none
        else (parseTemplateAux g1 fuel (e :: r2)).map (fun x => g1 ++ x)
      | ['1'] => some g1
      | '0' :: e1 :: e2 :: r2 =>
        if isOctalDigit e1 then
          if isOctalDigit e2 then
            (parseTemplateAux g1 fuel r2).map
              (fun x => Char.ofNat (8 * octalVal e1 + octalVal e2) :: x)
          else
            (parseTemplateAux g1 fuel (e2 :: r2)).map
              (fun x => Char.ofNat (octalVal e1) :: x)
        else
          (parseTemplateAux g1 fuel (e1 :: e2 :: r2)).map
            (fun x => '\x00' :: x)
      | ['0', e1] =>
        if isOctalDigit e1 then some [Char.ofNat (octalVal e1)]
        else (parseTemplateAux g1 fuel [e1]).map (fun x => '\x00' :: x)
      | ['0'] => some ['\x00']
      | d :: r2 =>
        if d.isDigit then none
        else if d.isAlpha then none
        else (parseTemplateAux g1 fuel r2).map (fun e => '\\' :: d :: e)
    else (parseTemplateAux g1 fuel r).map (fun e => c :: e)

def parseTemplate (g1 v : List Char) : Option (List Char) :=
  parseTemplateAux g1 v.length v

/-! ## `re.subn` on a multiline text, one pattern at a time -/

/-- Rewrite one line: when it matches, append the expanded replacement
tail (the `\g<1>` prefix of the template reproduces the match, so the
net effect is appending).  `g1Of` computes the group-1 text. -/
def fillLineG (matchB : List Char → Bool) (g1Of : List Char → List Char)
    (v l : List Char) : Option (List Char) :=
  if matchB l then (parseTemplate (g1Of l) v).map (fun e => l ++ e)
  else some l

def fillLinesG (matchB : List Char → Bool) (g1Of : List Char → List Char)
    (v : List Char) : List (List Char) → Option (List (List Char))
  | [] => some []
  | l :: ls =>
    match fillLineG matchB g1Of v l, fillLinesG matchB g1Of v ls with
    | some l2, some ls2 => some (l2 :: ls2)
    | _, _ => none

/-- `re.subn` of a line-anchored pattern over the whole text: rewrite
every matching line, report whether any line matched. -/
def subnG (matchB : List Char → Bool) (g1Of : List Char → List Char)
    (v text : List Char) : Option (List Char × Bool) :=
  (fillLinesG matchB g1Of v (splitNl text)).map
    (fun ls => (joinNl ls, (splitNl text).any matchB))

/-- `re.subn(rf'(\*\*{name}\*\*:[ \t]*)$', rf'\g<1>{v}', text, MULTILINE)`. -/
def subnField (lab v text : List Char) : Option (List Char × Bool) :=
  subnG (blankFieldMatch lab) (fun l => lab ++ trailingB l) v text

/-- `re.subn(r'^(doi:[ \t]*)$', rf'\g<1>{v}', text, MULTILINE)`. -/
def subnDoi (v text : List Char) : Option (List Char × Bool) :=
  subnG doiBlankLine (fun l => l) v text

/-! ## `ZoteroSync.update_existing_markdown` (text rewriting core)

The file lookup/read/write and the `mark_self_modified` registration
around the rewriting are I/O; the claims concern the rewriting itself. -/

/-- The bibliographic values consumed by `update_existing_markdown`
(one Python string per citation field of `build_biblio`). -/
structure Biblio where
  author : String
  year : String
  journal : String
  publisher : String
  volume : String
  issue : String
  pages : String
  doi : String
  issn : String
  url : String
  language : String
deriving DecidableEq, Repr

/-- The `field_patterns` list (line 348-360 of the source), with the
regex-escaped names `권\(Vol\)` / `호\(Issue\)` written as the literal
text they match. -/
def field_patterns (b : Biblio) : List (String × List Char) :=
  [("저자", b.author.toList),
   ("연도", b.year.toList),
   ("저널/출처", b.journal.toList),
   ("출판사", b.publisher.toList),
   ("권(Vol)", b.volume.toList),
   ("호(Issue)", b.issue.toList),
   ("페이지", b.pages.toList),
   ("DOI", b.doi.toList),
   ("ISSN", b.issn.toList),
   ("URL", b.url.toList),
   ("언어", b.language.toList)]

def fieldNames : List String :=
  ["저자", "연도", "저널/출처", "출판사", "권(Vol)", "호(Issue)",
   "페이지", "DOI", "ISSN", "URL", "언어"]

/-- The per-field loop: skip empty values, run `re.subn`, accumulate
the changed flag; an expansion error propagates (`re.error`). -/
def applyFields :
    List (String × List Char) → List Char → Bool →
    Option (List Char × Bool)
  | [], text, changed => some (text, changed)
  | (name, v) :: ps, text, changed =>
    if v = [] then applyFields ps text changed
    else
      match subnField (labelOf name) v text with
      | none => none
      | some (t2, n) => applyFields ps t2 (changed || n)

/-- `ZoteroSync.update_existing_markdown`, lines 347-391: per-field
blank-line backfill followed by the frontmatter `doi:` backfill.
Returns the rewritten text and the `changed` flag (`none` models an
uncaught `re.error` from the replacement template). -/
def update_existing_markdown (b : Biblio) (text : List Char) :
    Option (List Char × Bool) :=
  match applyFields (field_patterns b) text false with
  | none => none
  | some (t1, changed) =>
    if b.doi ≠ "" then
      match subnDoi b.doi.toList t1 with
      | none => none
      | some (t2, n) => some (t2, changed || n)
    else some (t1, changed)

/-! ## Behaviour of the rewriting on escape-free values -/

theorem parseTemplateAux_clean (g1 : List Char) :
    ∀ (v : List Char) (fuel : Nat), v.length ≤ fuel → '\\' ∉ v →
    parseTemplateAux g1 fuel v = some v := by
  intro v
  induction v with
  | nil => intro fuel _ _; cases fuel <;> rfl
  | cons c r ih =>
    intro fuel hlen h
    have hc : c ≠ '\\' := fun he => h (he ▸ List.mem_cons_self c r)
    have hr : '\\' ∉ r := fun hm => h (List.mem_cons_of_mem c hm)
    cases fuel with
    | zero => exact absurd hlen (by simp)
    | succ f =>
      simp only [parseTemplateAux, if_neg hc]
      rw [ih f (by simpa using Nat.succ_le_succ_iff.mp hlen) hr]
      rfl

theorem parseTemplate_clean (g1 : List Char) (v : List Char)
    (h : '\\' ∉ v) : parseTemplate g1 v = some v :=
  parseTemplateAux_clean g1 v v.length (Nat.le_refl _) h

/-- The effect of one `re.subn` pass on one line, for an escape-free
value: append the value to a matching line. -/
def fSimpleG (matchB : List Char → Bool) (v l : List Char) : List Char :=
  if matchB l then l ++ v else l

theorem fillLineG_clean (matchB : List Char → Bool)
    (g1Of : List Char → List Char) (v l : List Char) (hbs : '\\' ∉ v) :
    fillLineG matchB g1Of v l = some (fSimpleG matchB v l) := by
  unfold fillLineG fSimpleG
  split_ifs with hm
  · rw [parseTemplate_clean (g1Of l) v hbs]
    rfl
  · rfl

theorem fillLinesG_clean (matchB : List Char → Bool)
    (g1Of : List Char → List Char) (v : List Char) (hbs : '\\' ∉ v) :
    ∀ ls : List (List Char),
    fillLinesG matchB g1Of v ls = some (ls.map (fSimpleG matchB v)) := by
  intro ls
  induction ls with
  | nil => rfl
  | cons l ls ih =>
    simp only [fillLinesG, fillLineG_clean matchB g1Of v l hbs, ih,
      List.map_cons]

theorem subnG_clean (matchB : List Char → Bool)
    (g1Of : List Char → List Char) (v text : List Char) (hbs : '\\' ∉ v) :
    subnG matchB g1Of v text
      = some (joinNl ((splitNl text).map (fSimpleG matchB v)),
              (splitNl text).any matchB) := by
  unfold subnG
  rw [fillLinesG_clean matchB g1Of v hbs]
  rfl

theorem fSimpleG_no_nl (matchB : List Char → Bool) (v l : List Char)
    (hv : '\n' ∉ v) (hl : '\n' ∉ l) : '\n' ∉ fSimpleG matchB v l := by
  unfold fSimpleG
  split_ifs
  · intro hmem
    rcases List.mem_append.mp hmem with h | h
    · exact hl h
    · exact hv h
  · exact hl

/-- After a clean pass, re-splitting recovers exactly the mapped lines. -/
theorem splitNl_subn_result (matchB : List Char → Bool) (v text : List Char)
    (hv : '\n' ∉ v) :
    splitNl (joinNl ((splitNl text).map (fSimpleG matchB v)))
      = (splitNl text).map (fSimpleG matchB v) := by
  refine splitNl_joinNl _ ?_ ?_
  · simp [splitNl_ne_nil text]
  · intro l hl
    rcases List.mem_map.mp hl with ⟨l0, hl0, rfl⟩
    exact fSimpleG_no_nl matchB v l0 hv (mem_splitNl_no_nl text l0 hl0)

/-! ## The whole-text update as a per-line function -/

/-- The composed per-line effect of the per-field loop. -/
def chainF : List (String × List Char) → List Char → List Char
  | [], l => l
  | (name, v) :: ps, l =>
    chainF ps
      (if v = [] then l else fSimpleG (blankFieldMatch (labelOf name)) v l)

/-- The composed per-line effect of `update_existing_markdown`. -/
def lineF (b : Biblio) (l : List Char) : List Char :=
  if b.doi ≠ "" then
    fSimpleG doiBlankLine b.doi.toList (chainF (field_patterns b) l)
  else chainF (field_patterns b) l

/-- A value set is clean when no value carries a backslash (which would
trigger template-escape processing) or a newline (which would change
the line structure mid-update). -/
def cleanBiblio (b : Biblio) : Prop :=
  ∀ p ∈ field_patterns b, '\\' ∉ p.2 ∧ '\n' ∉ p.2

theorem applyFields_clean :
    ∀ (ps : List (String × List Char)),
    (∀ p ∈ ps, '\\' ∉ p.2 ∧ '\n' ∉ p.2) →
    ∀ (text : List Char) (changed : Bool),
    ∃ (t2 : List Char) (chg : Bool),
    applyFields ps text changed = some (t2, chg) ∧
    splitNl t2 = (splitNl text).map (chainF ps) := by
  intro ps
  induction ps with
  | nil =>
    intro _ text changed
    exact ⟨text, changed, rfl, by simp [chainF]⟩
  | cons p ps ih =>
    intro hclean text changed
    obtain ⟨name, v⟩ := p
    have hv := hclean (name, v) (List.mem_cons_self _ _)
    have hclean2 : ∀ q ∈ ps, '\\' ∉ q.2 ∧ '\n' ∉ q.2 :=
      fun q hq => hclean q (List.mem_cons_of_mem _ hq)
    by_cases hve : v = []
    · simp only [applyFields, if_pos hve]
      obtain ⟨t2, chg, happ, hsplit⟩ := ih hclean2 text changed
      refine ⟨t2, chg, happ, ?_⟩
      rw [hsplit]
      refine List.map_congr_left ?_
      intro l _
      simp [chainF, hve]
    · simp only [applyFields, if_neg hve]
      rw [show subnField (labelOf name) v text
          = some (joinNl ((splitNl text).map
              (fSimpleG (blankFieldMatch (labelOf name)) v)),
            (splitNl text).any (blankFieldMatch (labelOf name))) from
        subnG_clean _ _ v text hv.1]
      obtain ⟨t2, chg, happ, hsplit⟩ := ih hclean2
        (joinNl ((splitNl text).map
          (fSimpleG (blankFieldMatch (labelOf name)) v))) _
      refine ⟨t2, chg, happ, ?_⟩
      rw [hsplit, splitNl_subn_result _ v text hv.2, List.map_map]
      refine List.map_congr_left ?_
      intro l _
      simp [chainF, hve, Function.comp]

theorem update_existing_markdown_eq (b : Biblio) (text t1 : List Char)
    (chg : Bool)
    (h : applyFields (field_patterns b) text false = some (t1, chg)) :
    update_existing_markdown b text
      = if b.doi ≠ "" then
          match subnDoi b.doi.toList t1 with
          | none => none
          | some (t2, n) => some (t2, chg || n)
        else some (t1, chg) := by
  unfold update_existing_markdown
  rw [h]

theorem update_existing_markdown_clean (b : Biblio) (hb : cleanBiblio b)
    (text : List Char) :
    ∃ (t2 : List Char) (chg : Bool),
    update_existing_markdown b text = some (t2, chg) ∧
    splitNl t2 = (splitNl text).map (lineF b) := by
  have hdoi : '\\' ∉ b.doi.toList ∧ '\n' ∉ b.doi.toList :=
    hb ("DOI", b.doi.toList) (by simp [field_patterns])
  obtain ⟨t1, chg1, happ, hsplit1⟩ :=
    applyFields_clean (field_patterns b) hb text false
  rw [update_existing_markdown_eq b text t1 chg1 happ]
  by_cases hde : b.doi = ""
  · refine ⟨t1, chg1, by rw [if_neg (by simp [hde])], ?_⟩
    rw [hsplit1]
    refine List.map_congr_left ?_
    intro l _
    simp [lineF, hde]
  · rw [if_pos (by simpa using hde)]
    rw [show subnDoi b.doi.toList t1
        = some (joinNl ((splitNl t1).map (fSimpleG doiBlankLine b.doi.toList)),
            (splitNl t1).any doiBlankLine) from
      subnG_clean _ _ _ t1 hdoi.1]
    refine ⟨_, _, rfl, ?_⟩
    rw [splitNl_subn_result _ _ t1 hdoi.2, hsplit1, List.map_map]
    refine List.map_congr_left ?_
    intro l _
    simp [lineF, hde, Function.comp]

/-! ## At most one field pattern matches a given line -/

theorem suffix_or_suffix_of_suffix {l1 l2 l3 : List Char}
    (h1 : l1 <:+ l3) (h2 : l2 <:+ l3) : l1 <:+ l2 ∨ l2 <:+ l1 := by
  have p1 : l1.reverse <+: l3.reverse := List.reverse_prefix.mpr h1
  have p2 : l2.reverse <+: l3.reverse := List.reverse_prefix.mpr h2
  rcases List.prefix_or_prefix_of_prefix p1 p2 with h | h
  · exact Or.inl (List.reverse_prefix.mp h)
  · exact Or.inr (List.reverse_prefix.mp h)

theorem labels_not_suffixB :
    ∀ n ∈ fieldNames, ∀ g ∈ fieldNames, n ≠ g →
    ((labelOf n).isSuffixOf (labelOf g)) = false := by decide

theorem doi_label_not_suffixB :
    ∀ n ∈ fieldNames, ((labelOf n).isSuffixOf ("doi:".toList)) = false := by
  decide

theorem blankFieldMatch_unique (l : List Char) (n g : String)
    (hn : n ∈ fieldNames) (hg : g ∈ fieldNames) (hne : n ≠ g)
    (hbn : blankFieldMatch (labelOf n) l = true) :
    blankFieldMatch (labelOf g) l = false := by
  by_contra hbg
  have hbg2 : blankFieldMatch (labelOf g) l = true :=
    Bool.not_eq_false _ ▸ (Bool.of_not_eq_false hbg)
  have s1 : labelOf n <:+ rstripB l := List.isSuffixOf_iff_suffix.mp hbn
  have s2 : labelOf g <:+ rstripB l := List.isSuffixOf_iff_suffix.mp hbg2
  rcases suffix_or_suffix_of_suffix s1 s2 with h | h
  · have := List.isSuffixOf_iff_suffix.mpr h
    rw [labels_not_suffixB n hn g hg hne] at this
    exact Bool.noConfusion this
  · have := List.isSuffixOf_iff_suffix.mpr h
    rw [labels_not_suffixB g hg n hn (fun he => hne he.symm)] at this
    exact Bool.noConfusion this

theorem doiBlank_excludes_labels (l : List Char) (hd : doiBlankLine l = true) :
    ∀ n ∈ fieldNames, blankFieldMatch (labelOf n) l = false := by
  intro n hn
  have hr : rstripB l = "doi:".toList := by
    simpa [doiBlankLine] using hd
  unfold blankFieldMatch
  rw [hr]
  exact doi_label_not_suffixB n hn

theorem mem_field_patterns_name (b : Biblio) (p : String × List Char)
    (hp : p ∈ field_patterns b) : p.1 ∈ fieldNames := by
  simp only [field_patterns, List.mem_cons, List.not_mem_nil, or_false] at hp
  rcases hp with h|h|h|h|h|h|h|h|h|h|h <;> rw [h] <;> simp [fieldNames]

theorem field_patterns_name_unique (b : Biblio) (p q : String × List Char)
    (hp : p ∈ field_patterns b) (hq : q ∈ field_patterns b)
    (hname : p.1 = q.1) : p = q := by
  simp only [field_patterns, List.mem_cons, List.not_mem_nil, or_false]
    at hp hq
  rcases hp with h|h|h|h|h|h|h|h|h|h|h <;>
    rcases hq with h2|h2|h2|h2|h2|h2|h2|h2|h2|h2|h2 <;>
    rw [h, h2] <;> rw [h, h2] at hname <;>
    first
      | rfl
      | exact absurd hname (by simp)

/-! ## The per-line chain on matched and unmatched lines -/

theorem chainF_no_match :
    ∀ (ps : List (String × List Char)) (l : List Char),
    (∀ p ∈ ps, blankFieldMatch (labelOf p.1) l = false) →
    chainF ps l = l := by
  intro ps
  induction ps with
  | nil => intro l _; rfl
  | cons p ps ih =>
    intro l hno
    obtain ⟨pn, pv⟩ := p
    have hstep :
        (if pv = [] then l
         else fSimpleG (blankFieldMatch (labelOf pn)) pv l) = l := by
      split_ifs with hpv
      · rfl
      · unfold fSimpleG
        rw [if_neg (by simp [hno (pn, pv) (List.mem_cons_self _ _)])]
    simp only [chainF, hstep]
    exact ih l (fun q hq => hno q (List.mem_cons_of_mem _ hq))

theorem chainF_pivot :
    ∀ (ps : List (String × List Char)) (l v : List Char) (name : String),
    (name, v) ∈ ps → v ≠ [] →
    (∀ p ∈ ps, p.1 = name → p.2 = v) →
    blankFieldMatch (labelOf name) l = true →
    (∀ p ∈ ps, p.1 ≠ name → blankFieldMatch (labelOf p.1) l = false) →
    (∀ p ∈ ps, blankFieldMatch (labelOf p.1) (l ++ v) = false) →
    chainF ps l = l ++ v := by
  intro ps
  induction ps with
  | nil => intro l v name hmem; exact absurd hmem (List.not_mem_nil _)
  | cons p ps ih =>
    intro l v name hmem hv huniq hmatch hbefore hafter
    obtain ⟨pn, pv⟩ := p
    by_cases hpn : pn = name
    · have hpv : pv = v := huniq (pn, pv) (List.mem_cons_self _ _) hpn
      subst hpv
      subst hpn
      have hstep :
          (if pv = [] then l
           else fSimpleG (blankFieldMatch (labelOf pn)) pv l) = l ++ pv := by
        rw [if_neg hv]
        unfold fSimpleG
        rw [if_pos hmatch]
      simp only [chainF, hstep]
      exact chainF_no_match ps (l ++ pv)
        (fun q hq => hafter q (List.mem_cons_of_mem _ hq))
    · have hstep :
          (if pv = [] then l
           else fSimpleG (blankFieldMatch (labelOf pn)) pv l) = l := by
        split_ifs with hpv
        · rfl
        · unfold fSimpleG
          rw [if_neg (by
            simp [hbefore (pn, pv) (List.mem_cons_self _ _) hpn])]
      simp only [chainF, hstep]
      have hmem2 : (name, v) ∈ ps := by
        rcases List.mem_cons.mp hmem with heq | h2
        · exact absurd (congrArg (fun x => x.1) heq.symm) hpn
        · exact h2
      exact ih l v name hmem2 hv
        (fun q hq => huniq q (List.mem_cons_of_mem _ hq))
        hmatch
        (fun q hq => hbefore q (List.mem_cons_of_mem _ hq))
        (fun q hq => hafter q (List.mem_cons_of_mem _ hq))

/-! ## Claim C3 -/

/-- Bibliographic values for the concrete merge evaluations: only the
remote DOI is non-empty. -/
def bDoi : Biblio := ⟨"", "", "", "", "", "", "", "10.9/x", "", "", ""⟩

/-- Claim C3 counterexample: a line on which the DOI label *is*
followed by a non-empty value — `**DOI**: filled **DOI**:` — is
nevertheless changed by `update_existing_markdown`, because the value
itself ends with the label and trailing-blank pattern, so the blank
pattern matches at a later position and the remote value is appended. -/
theorem populated_line_changed_counterexample :
    (∃ vTail : List Char,
      "**DOI**: filled **DOI**:".toList = labelOf "DOI" ++ vTail ∧
      vTail ≠ [] ∧ vTail.any (fun c => !(isBlankC c)) = true) ∧
    update_existing_markdown bDoi ("**DOI**: filled **DOI**:".toList)
      = some ("**DOI**: filled **DOI**:10.9/x".toList, true) ∧
    "**DOI**: filled **DOI**:10.9/x".toList
      ≠ "**DOI**: filled **DOI**:".toList := by
  refine ⟨⟨" filled **DOI**:".toList, by decide, by decide, by decide⟩,
    by decide, by decide⟩

/-- Claim C3 amended: for a biblio whose values contain no backslash or
newline, every line of the Note that matches *no* blank-field pattern
(neither any `**label**:`-with-only-trailing-blanks pattern nor the
frontmatter `doi:` pattern) is left unchanged, at its position, by
`update_existing_markdown` — in particular every populated field line
whose value does not itself recreate a blank label at the end of the
line, regardless of the remote values. -/
theorem update_preserves_populated_lines (b : Biblio)
    (text line : List Char) (i : Nat) (hclean : cleanBiblio b)
    (hline : (splitNl text).get? i = some line)
    (hnomatch : ∀ name ∈ fieldNames,
      blankFieldMatch (labelOf name) line = false)
    (hnodoi : doiBlankLine line = false) :
    ∃ (t2 : List Char) (chg : Bool),
    update_existing_markdown b text = some (t2, chg) ∧
    (splitNl t2).get? i = some line := by
  obtain ⟨t2, chg, hupd, hsplit⟩ :=
    update_existing_markdown_clean b hclean text
  refine ⟨t2, chg, hupd, ?_⟩
  rw [hsplit, List.get?_map, hline]
  have hchain : chainF (field_patterns b) line = line :=
    chainF_no_match _ _
      (fun p hp => hnomatch p.1 (mem_field_patterns_name b p hp))
  have hlf : lineF b line = line := by
    unfold lineF
    split_ifs
    · unfold fSimpleG
      rw [hchain, if_neg (by simp [hnodoi])]
    · exact hchain
  simp only [Option.map_some']
  rw [hlf]

/-- Witness for `update_preserves_populated_lines`: the populated line
`**DOI**: existing` is untouched although the remote DOI differs. -/
theorem update_preserves_populated_lines_witness :
    ∃ (t2 : List Char) (chg : Bool),
    update_existing_markdown bDoi ("**DOI**: existing\n**URL**:".toList)
      = some (t2, chg) ∧
    (splitNl t2).get? 0 = some ("**DOI**: existing".toList) :=
  update_preserves_populated_lines bDoi
    ("**DOI**: existing\n**URL**:".toList) ("**DOI**: existing".toList) 0
    (by unfold cleanBiblio; decide) (by decide) (by decide) (by decide)

/-! ## Claim C4 -/

/-- Bibliographic values whose DOI contains the two characters
backslash-`n`, a regex-replacement escape sequence. -/
def bEscape : Biblio := ⟨"", "", "", "", "", "", "", "10\\n1", "", "", ""⟩

/-- Claim C4 counterexample: backfilling the blank line `**DOI**:` with
the remote value `10\n1` (backslash-`n`) does not put that value on the
line: the template expansion turns `\n` into a real newline, so the
field line ends up carrying `**DOI**:10` and a new line `1` appears —
not the remote value exactly. -/
theorem backslash_value_counterexample :
    bEscape.doi ≠ "" ∧
    blankFieldMatch (labelOf "DOI") ("**DOI**:".toList) = true ∧
    ∃ t4 : List Char,
      update_existing_markdown bEscape ("**DOI**:".toList)
        = some (t4, true) ∧
      (splitNl t4).get? 0 ≠ some ("**DOI**:".toList ++ bEscape.doi.toList) := by
  refine ⟨by decide, by decide,
    ⟨"**DOI**:10".toList ++ '\n' :: "1".toList, by decide, by decide⟩⟩

/-- Claim C4 amended: for a biblio whose values contain no backslash
(no regex-replacement escape sequences) and no newline, if the Note's
line `i` matches the blank pattern of field `name` whose remote value
`v` is non-empty, and the filled line does not itself match any blank
pattern again, then after `update_existing_markdown` line `i` is
exactly the old line with `v` appended — the field line carries exactly
the remote value. -/
theorem blank_line_backfilled (b : Biblio) (text line : List Char)
    (i : Nat) (name : String) (v : List Char) (hclean : cleanBiblio b)
    (hmem : (name, v) ∈ field_patterns b) (hv : v ≠ [])
    (hline : (splitNl text).get? i = some line)
    (hmatch : blankFieldMatch (labelOf name) line = true)
    (hafter : ∀ g ∈ fieldNames,
      blankFieldMatch (labelOf g) (line ++ v) = false)
    (hd2 : doiBlankLine (line ++ v) = false) :
    ∃ (t2 : List Char) (chg : Bool),
    update_existing_markdown b text = some (t2, chg) ∧
    (splitNl t2).get? i = some (line ++ v) := by
  obtain ⟨t2, chg, hupd, hsplit⟩ :=
    update_existing_markdown_clean b hclean text
  have hname : name ∈ fieldNames :=
    mem_field_patterns_name b (name, v) hmem
  have hchain : chainF (field_patterns b) line = line ++ v := by
    refine chainF_pivot (field_patterns b) line v name hmem hv ?_ hmatch ?_ ?_
    · intro p hp hpn
      have := field_patterns_name_unique b p (name, v) hp hmem (by rw [hpn])
      rw [this]
    · intro p hp hpn
      exact blankFieldMatch_unique line name p.1 hname
        (mem_field_patterns_name b p hp) (fun he => hpn he.symm) hmatch
    · intro p hp
      exact hafter p.1 (mem_field_patterns_name b p hp)
  refine ⟨t2, chg, hupd, ?_⟩
  rw [hsplit, List.get?_map, hline]
  have hlf : lineF b line = line ++ v := by
    unfold lineF
    split_ifs
    · unfold fSimpleG
      rw [hchain, if_neg (by simp [hd2])]
    · exact hchain
  simp only [Option.map_some']
  rw [hlf]

/-- Witness for `blank_line_backfilled`: the blank `**DOI**:` line is
filled with exactly the escape-free remote DOI `10.9/x`. -/
theorem blank_line_backfilled_witness :
    ∃ (t2 : List Char) (chg : Bool),
    update_existing_markdown bDoi ("**DOI**:".toList) = some (t2, chg) ∧
    (splitNl t2).get? 0 = some ("**DOI**:".toList ++ "10.9/x".toList) :=
  blank_line_backfilled bDoi ("**DOI**:".toList) ("**DOI**:".toList) 0
    "DOI" ("10.9/x".toList) (by unfold cleanBiblio; decide) (by decide)
    (by decide) (by decide) (by decide) (by decide) (by decide)

/-! ## `ObsidianWatcher.push_to_zotero` (claim C10)

The note file read and the two remote calls are passed in as
parameters; everything else — frontmatter extraction, `zotero_key` and
`tags` parsing, field parsing, diff computation — is embedded,
including the `re` subtleties the source relies on (`\s*` in
`^zotero_key:\s*(.+)$` may cross newlines; searches resume at later
positions when a candidate position fails). -/

/-- Index of the first occurrence of `pat`. -/
def findSubIdx (pat : List Char) : List Char → Option Nat
  | [] => if pat.isPrefixOf ([] : List Char) then some 0 else none
  | l@(_ :: t) =>
    if pat.isPrefixOf l then some 0 else (findSubIdx pat t).map (· + 1)

/-- `re.match(r"^---\n(.*?)\n---", text, re.DOTALL)`: group 1. -/
def fmExtract (text : List Char) : Option (List Char) :=
  if ("---\n".toList).isPrefixOf text then
    (findSubIdx ("\n---".toList) (text.drop 4)).map
      (fun i => (text.drop 4).take i)
  else none

/-- `re.search(r'^zotero_key:\s*(.+)$', fm, re.MULTILINE)` followed by
`.group(1).strip()`: scan the line starts; after `zotero_key:` the
greedy `\s*` may cross newlines, so the captured value can come from a
later line; when only whitespace remains but some of it is not a
newline, the group captures blanks and strips to the empty value. -/
def searchZKeyLines : List (List Char) → Option (List Char)
  | [] => none
  | line :: rest =>
    if ("zotero_key:".toList).isPrefixOf line then
      let flat := joinNl (line.drop 11 :: rest)
      let afterWs := flat.dropWhile isPyWs
      if afterWs ≠ [] then
        some (trimPy (afterWs.takeWhile (fun c => c ≠ '\n')))
      else if flat.any (fun c => c ≠ '\n') then some []
      else searchZKeyLines rest
    else searchZKeyLines rest

/-- `re.search(r'^tags:\s*\[(.+?)\]', fm, re.MULTILINE)`: group 1. -/
def searchTagsLines : List (List Char) → Option (List Char)
  | [] => none
  | line :: rest =>
    if ("tags:".toList).isPrefixOf line then
      let flat := joinNl (line.drop 5 :: rest)
      let afterWs := flat.dropWhile isPyWs
      match afterWs with
      | '[' :: inner =>
        match inner.takeWhile (fun c => c ≠ '\n') with
        | [] => searchTagsLines rest
        | c :: tl =>
          match tl.findIdx? (fun c2 => c2 = ']') with
          | some j => some (c :: tl.take j)
          | none => searchTagsLines rest
      | _ => searchTagsLines rest
    else searchTagsLines rest

def splitOnC (sep : Char) : List Char → List (List Char)
  | [] => [[]]
  | c :: rest =>
    if c = sep then [] :: splitOnC sep rest
    else
      match splitOnC sep rest with
      | [] => [[c]]
      | l :: ls => (c :: l) :: ls

/-- `t.strip('"')`. -/
def stripQuotes (l : List Char) : List Char :=
  ((l.dropWhile (fun c => c = '"')).reverse.dropWhile
    (fun c => c = '"')).reverse

/-- `[t.strip().strip('"') for t in group.split(",") if t.strip()]`
then dropping `literature` / `paper`. -/
def parseTagList (group : List Char) : List String :=
  (((splitOnC ',' group).filterMap
      (fun t =>
        if trimPy t ≠ [] then some (stripQuotes (trimPy t)) else none)).map
    String.mk).filter
    (fun t => t != "literature" && t != "paper")

/-- The tags the push parses out of the frontmatter. -/
def noteTags (fm : List Char) : List String :=
  match searchTagsLines (splitNl fm) with
  | none => []
  | some g => parseTagList g

/-- `get_field` (lines 532-538): first match of
`\*\*{label}\*\*:[ \t]*(.+)` anywhere in the note text, stripped and
filtered (`>`-quotes and `-` placeholders count as empty). -/
def getFieldAux (pat : List Char) : List Char → Option (List Char)
  | [] => none
  | l@(_ :: t) =>
    if pat.isPrefixOf l then
      let rest := l.drop pat.length
      if rest ≠ [] ∧ rest.head? ≠ some '\n' then
        let blanks := rest.takeWhile isBlankC
        let after := rest.drop blanks.length
        if after ≠ [] ∧ after.head? ≠ some '\n' then
          some (after.takeWhile (fun c => c ≠ '\n'))
        else
          match blanks.getLast? with
          | some cb => some [cb]
          | none => none
      else getFieldAux pat t
    else getFieldAux pat t

def get_field (name : String) (text : List Char) : String :=
  match getFieldAux (("**" ++ name ++ "**:").toList) text with
  | none => ""
  | some g =>
    let val := trimPy g
    if val ≠ [] ∧ val.head? ≠ some '>' ∧ val ≠ ['-'] then String.mk val
    else ""

/-- The remote item fields `push_to_zotero` reads. -/
structure RemoteItem where
  version : Nat
  tags : List String
  publicationTitle : String
  publisher : String
  volume : String
  issue : String
  pages : String
  DOI : String
  ISSN : String
  url : String
  language : String
deriving DecidableEq, Repr

/-- `item["data"].get(field, "")`. -/
def dataGet (it : RemoteItem) : String → String
  | "publicationTitle" => it.publicationTitle
  | "publisher" => it.publisher
  | "volume" => it.volume
  | "issue" => it.issue
  | "pages" => it.pages
  | "DOI" => it.DOI
  | "ISSN" => it.ISSN
  | "url" => it.url
  | "language" => it.language
  | _ => ""

/-- The `field_map` of the push direction (`저자` is skipped). -/
def field_map : List (String × Option String) :=
  [("저자", none),
   ("저널/출처", some "publicationTitle"),
   ("출판사", some "publisher"),
   ("권(Vol)", some "volume"),
   ("호(Issue)", some "issue"),
   ("페이지", some "pages"),
   ("DOI", some "DOI"),
   ("ISSN", some "ISSN"),
   ("URL", some "url"),
   ("언어", some "language")]

/-- The `updates` dict: an optional tags replacement plus field
updates keyed by remote field name. -/
structure ZUpdates where
  tags : Option (List String)
  fields : List (String × String)
deriving DecidableEq, Repr

/-- Python set equality of two tag lists. -/
def sameTagSet (a b : List String) : Bool :=
  a.all (fun t => b.contains t) && b.all (fun t => a.contains t)

/-- The field-and-tag diff `push_to_zotero` computes against the
fetched remote item. -/
def computeUpdates (text : List Char) (tags : List String)
    (it : RemoteItem) : ZUpdates :=
  { tags := if sameTagSet tags it.tags then none else some tags
    fields := field_map.filterMap
      (fun p =>
        match p.2 with
        | none => none
        | some zf =>
          let mdVal := get_field p.1 text
          if mdVal ≠ "" ∧ mdVal ≠ dataGet it zf then some (zf, mdVal)
          else none) }

/-- `ObsidianWatcher.push_to_zotero`.  `readResult` is the file read
(`none` = exception), `fetch` the result of `self.zot.item(key)`,
`updateOk` whether the final `update_item` call succeeds.  Returns the
boolean result and the update issued to the remote (`none` =
`update_item` never called, the remote item is left unchanged). -/
def push_to_zotero (readResult : Option String)
    (fetch : Except Unit RemoteItem) (updateOk : Bool) :
    Bool × Option ZUpdates :=
  match readResult with
  | none => (false, none)
  | some textS =>
    match fmExtract textS.toList with
    | none => (false, none)
    | some fm =>
      match searchZKeyLines (splitNl fm) with
      | none => (false, none)
      | some keyV =>
        if keyV = [] then (false, none)
        else
          match fetch with
          | .error _ => (false, none)
          | .ok item =>
            let up := computeUpdates textS.toList (noteTags fm) item
            if up.tags = none ∧ up.fields = [] then (false, none)
            else (updateOk, some up)

/-! ## Claim C10 -/

/-- The claim's wording of "the frontmatter has a non-empty
`zotero_key`": some frontmatter line starts with `zotero_key:` and
carries a non-blank value on that same line. -/
def frontmatterHasNonEmptyZoteroKey (t : String) : Bool :=
  match fmExtract t.toList with
  | none => false
  | some fm =>
    (splitNl fm).any
      (fun l => ("zotero_key:".toList).isPrefixOf l
        && !(trimPy (l.drop 11)).isEmpty)

def textBadKey : String := "---\nzotero_key:\nx: y\n---\nbody"

def remTagged : RemoteItem := ⟨1, ["t"], "", "", "", "", "", "", "", "", ""⟩

/-- Claim C10 counterexample: a note whose frontmatter *lacks* a
non-empty `zotero_key` (the `zotero_key:` line is blank) for which
`push_to_zotero` nevertheless issues a remote update and returns true:
the greedy `\s*` of the key regex crosses the newline and captures the
next frontmatter line `x: y` as the key, and with a successful fetch of
a remote item whose tag set differs, `update_item` is called. -/
theorem push_blank_key_counterexample :
    frontmatterHasNonEmptyZoteroKey textBadKey = false ∧
    push_to_zotero (some textBadKey) (.ok remTagged) true
      = (true, some ⟨some [], []⟩) := by
  exact ⟨by decide, by decide⟩

/-- Claim C10 amended: `push_to_zotero` issues no remote update and
returns false when the note file cannot be read, when the frontmatter
block is absent, when the `zotero_key` regex search yields no value or
a blank value (note that a blank `zotero_key:` line followed by a
further frontmatter line makes the regex capture that next line as the
key instead), when the remote fetch fails, or when the computed
field-and-tag diff against the fetched remote item is empty; in every
such case the remote item is left unchanged. -/
theorem push_returns_false_without_update
    (fetch : Except Unit RemoteItem) (uok : Bool) :
    (push_to_zotero none fetch uok = (false, none)) ∧
    (∀ s : String, fmExtract s.toList = none →
      push_to_zotero (some s) fetch uok = (false, none)) ∧
    (∀ (s : String) (fm : List Char), fmExtract s.toList = some fm →
      (searchZKeyLines (splitNl fm)).getD [] = [] →
      push_to_zotero (some s) fetch uok = (false, none)) ∧
    (∀ s : String, push_to_zotero (some s) (.error ()) uok = (false, none)) ∧
    (∀ (s : String) (fm : List Char) (item : RemoteItem),
      fmExtract s.toList = some fm →
      computeUpdates s.toList (noteTags fm) item = ⟨none, []⟩ →
      push_to_zotero (some s) (.ok item) uok = (false, none)) := by
  refine ⟨rfl, ?_, ?_, ?_, ?_⟩
  · intro s hfm
    unfold push_to_zotero
    dsimp only
    rw [hfm]
  · intro s fm hfm hkey
    unfold push_to_zotero
    dsimp only
    rw [hfm]
    dsimp only
    cases hk : searchZKeyLines (splitNl fm) with
    | none => rfl
    | some keyV =>
      rw [hk] at hkey
      simp only [Option.getD] at hkey
      dsimp only
      rw [if_pos hkey]
  · intro s
    unfold push_to_zotero
    dsimp only
    cases hfm : fmExtract s.toList with
    | none => rfl
    | some fm =>
      dsimp only
      cases hk : searchZKeyLines (splitNl fm) with
      | none => rfl
      | some keyV =>
        dsimp only
        by_cases hkv : keyV = []
        · rw [if_pos hkv]
        · rw [if_neg hkv]
  · intro s fm item hfm hemp
    unfold push_to_zotero
    dsimp only
    rw [hfm]
    dsimp only
    cases hk : searchZKeyLines (splitNl fm) with
    | none => rfl
    | some keyV =>
      dsimp only
      by_cases hkv : keyV = []
      · rw [if_pos hkv]
      · rw [if_neg hkv]
        rw [hemp]
        rw [if_pos ⟨rfl, rfl⟩]

/-- Witness for `push_returns_false_without_update`: a note whose
frontmatter is exactly a blank `zotero_key:` line is rejected without
any remote update. -/
theorem push_returns_false_without_update_witness :
    push_to_zotero (some "---\nzotero_key:\n---\nbody")
      (.ok remTagged) true = (false, none) :=
  (push_returns_false_without_update (.ok remTagged) true).2.2.1
    "---\nzotero_key:\n---\nbody" ("zotero_key:".toList) (by decide)
    (by decide)

end PaperSync
